import Mathlib

/-!
Verification of the workflow task-orchestration engine of the Happiness-Agent
repository (`src/core/minimal-orchestrator.js`, class `OrchestratorClient`).

The engine is embedded shallowly: JS dynamic values become a JSON-like `Value`
type, JS objects become association lists, the per-step dynamic behaviours
(`inputs`, `outputMapping`, `condition`, and the Agent Invoker `executeStep`)
become Lean functions returning `Except String _` (a thrown JS exception is
the `.error` case carrying `error.message`).  Every `this.tasks.set(...)`
publication, every `executeStep` call and every `saveTasksToDisk()` call is
recorded in an event trace so that claims about observable mutations,
persistence and invoker calls can be stated.  JS `Math.floor` over exact
rational arithmetic on naturals is embedded as Nat division.
-/

namespace HappinessAgent

/-- JSON-like dynamic values (the fragment of JS values the engine touches). -/
inductive Value where
  | vnull : Value
  | vbool : Bool → Value
  | vnum : Int → Value
  | vstr : String → Value
  | varr : List Value → Value
  | vobj : List (String × Value) → Value

/-- A JS object: insertion-ordered association list from string keys to values. -/
abbrev Obj := List (String × Value)

/-- Task and step statuses, as the string constants used in the source. -/
inductive Status where
  | PENDING | RUNNING | COMPLETED | FAILED | CANCELLED | SKIPPED
deriving DecidableEq

/-- String interpolation of a status, as in `(status: ${task.status})`. -/
def Status.toStr : Status → String
  | .PENDING => "PENDING"
  | .RUNNING => "RUNNING"
  | .COMPLETED => "COMPLETED"
  | .FAILED => "FAILED"
  | .CANCELLED => "CANCELLED"
  | .SKIPPED => "SKIPPED"

/-- Generic JS-object key lookup (first binding wins, like property access). -/
def getKey {α : Type} : List (String × α) → String → Option α
  | [], _ => none
  | (k, v) :: rest, key => if k = key then some v else getKey rest key

/-- Whether a key is present. -/
def hasKey {α : Type} (o : List (String × α)) (key : String) : Bool :=
  o.any (fun p => p.1 = key)

/-- JS assignment `o[key] = v` / `Map.set`: replace in place if present, else append. -/
def setKey {α : Type} (o : List (String × α)) (key : String) (v : α) : List (String × α) :=
  if hasKey o key then o.map (fun p => if p.1 = key then (key, v) else p) else o ++ [(key, v)]

/-- JS object spread `\x7b...a, ...b\x7d`: keys of `b` override keys of `a`. -/
def mergeObj (a b : Obj) : Obj :=
  b.foldl (fun acc p => setKey acc p.1 p.2) a

/-- One entry of `task.steps`: per-step execution state. -/
structure StepRecord where
  name : String
  status : Status
  result : Option Obj
  error : Option String

/-- One task ledger entry, as created by `startWorkflow`. -/
structure Task where
  id : String
  type : String
  status : Status
  params : Obj
  steps : List StepRecord
  results : Obj
  started_at : String
  completed_at : Option String
  error : Option String

/-- `step.inputs` is either a function of `(params, prevResults)` or a static object
(the source checks `typeof step.inputs === 'function'`). -/
inductive StepInputs where
  | func : (Obj → List (String × Obj) → Except String Obj) → StepInputs
  | value : Obj → StepInputs

/-- A step of a workflow definition. -/
structure StepDef where
  name : String
  agent : String
  action : String
  inputs : StepInputs
  outputMapping : Option (Obj → Except String Obj)
  condition : Option (List (String × Obj) → Except String Bool)

/-- A workflow definition: an ordered list of step definitions. -/
structure Workflow where
  steps : List StepDef

/-- The accumulated per-run `stepResults` object: step name ↦ mapped result object. -/
abbrev StepResults := List (String × Obj)

/-- The Agent Invoker seam (`executeStep(agentName, action, inputs)`):
returns the raw result object or the thrown error's message. -/
abbrev Invoker := String → String → Obj → Except String Obj

/-- Observable effects of a run, in program order:
`publish` is `this.tasks.set(taskId, task)` with the task snapshot a reader
would see at that moment, `persist` is `saveTasksToDisk()`, and `invoke`
records an `executeStep` call made while executing the step at the given
position of the workflow. -/
inductive Event where
  | publish : Task → Event
  | persist : Event
  | invoke : Nat → String → String → Obj → Event

/-- True exactly on `publish` events. -/
def eventIsPublish : Event → Bool
  | .publish _ => true
  | _ => false

/-- True exactly on `persist` events. -/
def eventIsPersist : Event → Bool
  | .persist => true
  | _ => false

/-- The task snapshots published to the registry, in order. -/
def publishedTasks : List Event → List Task
  | [] => []
  | .publish t :: rest => t :: publishedTasks rest
  | _ :: rest => publishedTasks rest

/-- How `executeWorkflow` ended: the loop ran to completion, a step's try
block caught an error (carrying the composed task error message), or a
`condition` call threw (which propagates out of `executeWorkflow`, since the
source evaluates conditions outside the try block). -/
inductive StepsOutcome where
  | finished : StepsOutcome
  | stepFailed : String → StepsOutcome
  | condThrew : String → StepsOutcome
deriving DecidableEq

/-- `if (step.condition && !step.condition(stepResults))`: an absent condition
lets the step run; a present one is called on the accumulated results. -/
def condEval (sr : StepResults) : Option (StepResults → Except String Bool) → Except String Bool
  | some c => c sr
  | none => .ok true

/-- `typeof step.inputs === 'function' ? step.inputs(params, stepResults) : step.inputs`. -/
def computeInputs (params : Obj) (sr : StepResults) : StepInputs → Except String Obj
  | .func f => f params sr
  | .value v => .ok v

/-- `step.outputMapping ? step.outputMapping(result) : result`. -/
def applyOutputMapping (om : Option (Obj → Except String Obj)) (result : Obj) : Except String Obj :=
  match om with
  | some m => m result
  | none => .ok result

/-- `await this.executeStep(...)` followed by the output mapping, both inside
the try block. -/
def invokeAndMap (invoker : Invoker) (step : StepDef) (inputs : Obj) : Except String Obj :=
  match invoker step.agent step.action inputs with
  | .error msg => .error msg
  | .ok raw => applyOutputMapping step.outputMapping raw

/-- The step loop of `executeWorkflow`, on the list of workflow steps zipped
with their (initially `PENDING`) task records.  Returns the final records, the
final `stepResults`, the final `task.results`, the outcome, and the event
trace as a function of the records already processed before this call (needed
to form the full `task.steps` array inside published snapshots). -/
def runSteps (invoker : Invoker) (params : Obj) (base : Task) :
    List (StepDef × StepRecord) → StepResults → Obj →
      List StepRecord × StepResults × Obj × StepsOutcome × (List StepRecord → List Event)
  | [], sr, results => ([], sr, results, StepsOutcome.finished, fun _ => [])
  | (step, rec0) :: rest, sr, results =>
    let restRecs := rest.map Prod.snd
    match condEval sr step.condition with
    | .error msg =>
      -- the condition threw: `executeWorkflow` rejects, the record stays as it was
      (rec0 :: restRecs, sr, results, StepsOutcome.condThrew msg, fun _ => [])
    | .ok false =>
      -- `taskStep.status = 'SKIPPED'; continue;`
      let recS := { rec0 with status := Status.SKIPPED }
      let r := runSteps invoker params base rest sr results
      (recS :: r.1, r.2.1, r.2.2.1, r.2.2.2.1, fun done => r.2.2.2.2 (done ++ [recS]))
    | .ok true =>
      -- `taskStep.status = 'RUNNING'; this.tasks.set(taskId, task);`
      let recR := { rec0 with status := Status.RUNNING }
      match computeInputs params sr step.inputs with
      | .error msg =>
        let recF := { rec0 with status := Status.FAILED, error := some msg }
        let tMsg := "Failed to execute step " ++ step.name ++ ": " ++ msg
        (recF :: restRecs, sr, results, StepsOutcome.stepFailed tMsg,
          fun done =>
            [Event.publish { base with steps := done ++ recR :: restRecs, results := results },
             Event.publish { base with
                             steps := done ++ recF :: restRecs, results := results,
                             status := Status.FAILED, error := some tMsg }])
      | .ok inputs =>
        match invokeAndMap invoker step inputs with
        | .error msg =>
          let recF := { rec0 with status := Status.FAILED, error := some msg }
          let tMsg := "Failed to execute step " ++ step.name ++ ": " ++ msg
          (recF :: restRecs, sr, results, StepsOutcome.stepFailed tMsg,
            fun done =>
              [Event.publish { base with steps := done ++ recR :: restRecs, results := results },
               Event.invoke done.length step.agent step.action inputs,
               Event.publish { base with
                               steps := done ++ recF :: restRecs, results := results,
                               status := Status.FAILED, error := some tMsg }])
        | .ok mapped =>
          -- `stepResults[step.name] = mappedResult; taskStep.result = mappedResult;`
          -- `taskStep.status = 'COMPLETED'; task.results = \x7b...task.results, ...mappedResult\x7d;`
          let recC := { rec0 with status := Status.COMPLETED, result := some mapped }
          let sr2 := setKey sr step.name mapped
          let results2 := mergeObj results mapped
          let r := runSteps invoker params base rest sr2 results2
          (recC :: r.1, r.2.1, r.2.2.1, r.2.2.2.1,
            fun done =>
              Event.publish { base with steps := done ++ recR :: restRecs, results := results } ::
              Event.invoke done.length step.agent step.action inputs ::
              Event.publish { base with steps := done ++ recC :: restRecs, results := results2 } ::
              r.2.2.2.2 (done ++ [recC]))

/-- The task created by `startWorkflow` (lines 1004–1016): all step records
`PENDING` with `result: null`, empty `results`, status `PENDING`. -/
def mkTask (taskId workflowName : String) (wf : Workflow) (params : Obj) (startedAt : String) : Task :=
  { id := taskId, type := workflowName, status := Status.PENDING, params := params,
    steps := wf.steps.map (fun s =>
      { name := s.name, status := Status.PENDING, result := none, error := none }),
    results := [], started_at := startedAt, completed_at := none, error := none }

/-- The synchronous part of `startWorkflow`: validate the workflow name,
create and publish the new task; the caller gets the id or the thrown
`Workflow "name" not found` message.  The registry is returned unchanged on
failure (the source throws before any mutation). -/
def startWorkflow (workflows : List (String × Workflow)) (tasks : List (String × Task))
    (workflowName : String) (params : Obj) (taskId startedAt : String) :
    Except String String × List (String × Task) :=
  match getKey workflows workflowName with
  | none => (Except.error ("Workflow \"" ++ workflowName ++ "\" not found"), tasks)
  | some wf =>
    (Except.ok taskId, setKey tasks taskId (mkTask taskId workflowName wf params startedAt))

/-- `executeWorkflow(taskId, workflow, params)` on a task: set the task
`RUNNING`, publish, run the step loop, and on normal loop exit set
`COMPLETED` with a completion timestamp and publish.  A caught step failure
was already recorded (status `FAILED`, composed `error`) and published by the
loop's catch block; a thrown condition leaves the function by rejection with
the task as last published. -/
def executeWorkflow (invoker : Invoker) (params : Obj) (now : String) (wf : Workflow)
    (task : Task) : Task × StepsOutcome × List Event :=
  let t1 := { task with status := Status.RUNNING }
  let r := runSteps invoker params t1 (wf.steps.zip task.steps) [] task.results
  match r.2.2.2.1 with
  | StepsOutcome.finished =>
    let t2 := { t1 with
                steps := r.1, results := r.2.2.1, status := Status.COMPLETED,
                completed_at := some now }
    (t2, StepsOutcome.finished, Event.publish t1 :: r.2.2.2.2 [] ++ [Event.publish t2])
  | StepsOutcome.stepFailed m =>
    let t2 := { t1 with
                steps := r.1, results := r.2.2.1, status := Status.FAILED,
                error := some m }
    (t2, StepsOutcome.stepFailed m, Event.publish t1 :: r.2.2.2.2 [])
  | StepsOutcome.condThrew m =>
    let t2 := { t1 with steps := r.1, results := r.2.2.1 }
    (t2, StepsOutcome.condThrew m, Event.publish t1 :: r.2.2.2.2 [])

/-- The full fire-and-record flow launched by `startWorkflow`: create the
task, publish it, run `executeWorkflow`, and apply `startWorkflow`'s
`.catch` handler (which sets `FAILED` and `error` and publishes) to any
rejection.  No exception reaches the caller of `startWorkflow`. -/
def startAndRun (invoker : Invoker) (wf : Workflow) (workflowName : String) (params : Obj)
    (taskId startedAt now : String) : Task × StepsOutcome × List Event :=
  let t0 := mkTask taskId workflowName wf params startedAt
  let r := executeWorkflow invoker params now wf t0
  match r.2.1 with
  | StepsOutcome.condThrew m =>
    let tf := { r.1 with status := Status.FAILED, error := some m }
    (tf, StepsOutcome.condThrew m, Event.publish t0 :: r.2.2 ++ [Event.publish tf])
  | out => (r.1, out, Event.publish t0 :: r.2.2)

/-- The fields returned by `getTaskStatus`. -/
structure StatusView where
  id : String
  status : Status
  progress : Nat
  error : Option String
  started_at : String
  completed_at : Option String
  message : String

/-- `getStatusMessage(task)`: the derived human-readable status line. -/
def getStatusMessage (task : Task) : String :=
  match task.status with
  | Status.PENDING => "Task is queued and waiting to start"
  | Status.RUNNING =>
    match task.steps.find? (fun s => decide (s.status = Status.RUNNING)) with
    | some st => "Executing step: " ++ st.name
    | none => "Task is running"
  | Status.COMPLETED => "Task completed successfully"
  | Status.FAILED =>
    match task.error with
    | some e => e
    | none => "Task failed"
  | Status.CANCELLED => "Task was cancelled"
  | Status.SKIPPED => "Unknown status"

/-- `getTaskStatus(taskId)`: throws `Task ... not found` on an unknown id,
otherwise reports status, floor-percentage progress over `COMPLETED` and
`SKIPPED` steps, error, timestamps and the derived message.  Read-only: the
registry comes back unchanged. -/
def getTaskStatus (tasks : List (String × Task)) (taskId : String) :
    Except String StatusView × List (String × Task) :=
  match getKey tasks taskId with
  | none => (Except.error ("Task " ++ taskId ++ " not found"), tasks)
  | some task =>
    let totalSteps := task.steps.length
    let completedSteps :=
      (task.steps.filter
        (fun s => decide (s.status = Status.COMPLETED ∨ s.status = Status.SKIPPED))).length
    (Except.ok
      { id := task.id, status := task.status, progress := completedSteps * 100 / totalSteps,
        error := task.error, started_at := task.started_at, completed_at := task.completed_at,
        message := getStatusMessage task }, tasks)

/-- One character of `JSON.stringify`'s string escaping. -/
def jsonEscapeChar (c : Char) : String :=
  if c = '\"' then "\\\""
  else if c = '\\' then "\\\\"
  else if c = '\n' then "\\n"
  else if c = '\t' then "\\t"
  else if c = '\r' then "\\r"
  else String.singleton c

/-- `JSON.stringify` string escaping. -/
def jsonEscape (s : String) : String :=
  String.join (s.toList.map jsonEscapeChar)

/-- `n` spaces. -/
def indentStr (n : Nat) : String :=
  String.mk (List.replicate n ' ')

mutual

/-- `JSON.stringify(v, null, 2)` at a given current indentation. -/
def stringifyVal (ind : Nat) : Value → String
  | .vnull => "null"
  | .vbool true => "true"
  | .vbool false => "false"
  | .vnum n => toString n
  | .vstr s => "\"" ++ jsonEscape s ++ "\""
  | .varr xs => stringifyArr ind xs
  | .vobj fs => stringifyObj ind fs

/-- Array formatting of `JSON.stringify(·, null, 2)`. -/
def stringifyArr (ind : Nat) : List Value → String
  | [] => "[]"
  | x :: xs =>
    "[\n" ++ indentStr (ind + 2) ++ stringifyVal (ind + 2) x ++
      stringifyArrRest (ind + 2) xs ++ "\n" ++ indentStr ind ++ "]"

/-- Remaining array elements, comma-separated. -/
def stringifyArrRest (ind : Nat) : List Value → String
  | [] => ""
  | x :: xs => ",\n" ++ indentStr ind ++ stringifyVal ind x ++ stringifyArrRest ind xs

/-- Object formatting of `JSON.stringify(·, null, 2)`. -/
def stringifyObj (ind : Nat) : List (String × Value) → String
  | [] => "\x7b\x7d"
  | f :: fs =>
    "\x7b\n" ++ indentStr (ind + 2) ++ "\"" ++ jsonEscape f.1 ++ "\": " ++
      stringifyVal (ind + 2) f.2 ++ stringifyObjRest (ind + 2) fs ++ "\n" ++ indentStr ind ++ "\x7d"

/-- Remaining object fields, comma-separated. -/
def stringifyObjRest (ind : Nat) : List (String × Value) → String
  | [] => ""
  | f :: fs =>
    ",\n" ++ indentStr ind ++ "\"" ++ jsonEscape f.1 ++ "\": " ++ stringifyVal ind f.2 ++
      stringifyObjRest ind fs

end

/-- `getTaskArtifacts(taskId)`: throws on unknown ids and on any status other
than `COMPLETED`; on a `COMPLETED` task returns the hard-coded mock artifact
map (the serialized results under `results.json` plus two fixed files), not
the task's `results` object.  Read-only: the registry comes back unchanged. -/
def getTaskArtifacts (tasks : List (String × Task)) (taskId : String) :
    Except String Obj × List (String × Task) :=
  match getKey tasks taskId with
  | none => (Except.error ("Task " ++ taskId ++ " not found"), tasks)
  | some task =>
    if task.status ≠ Status.COMPLETED then
      (Except.error ("Task " ++ taskId ++ " is not completed (status: " ++
        task.status.toStr ++ ")"), tasks)
    else
      (Except.ok
        [("results.json", Value.vstr (stringifyObj 0 task.results)),
         ("example.js", Value.vstr "console.log(\"Hello from the generated code!\");"),
         ("README.md", Value.vstr "# Generated Module\n\nThis module was generated by Happiness Agent.")],
       tasks)

/-- `cancelTask(taskId)`: throws on unknown ids, throws unless the status is
`RUNNING` or `PENDING`, otherwise sets `CANCELLED` with a completion
timestamp, publishes, and returns `true`. -/
def cancelTask (tasks : List (String × Task)) (taskId : String) (now : String) :
    Except String Bool × List (String × Task) :=
  match getKey tasks taskId with
  | none => (Except.error ("Task " ++ taskId ++ " not found"), tasks)
  | some task =>
    if task.status ≠ Status.RUNNING ∧ task.status ≠ Status.PENDING then
      (Except.error ("Task " ++ taskId ++ " cannot be cancelled (status: " ++
        task.status.toStr ++ ")"), tasks)
    else
      (Except.ok true,
       setKey tasks taskId { task with status := Status.CANCELLED, completed_at := some now })

/-- Forward order on step statuses: `PENDING` before `RUNNING` before any of
the terminal statuses `COMPLETED`, `FAILED`, `SKIPPED`. -/
def statusRank : Status → Nat
  | Status.PENDING => 0
  | Status.RUNNING => 1
  | _ => 2

/-- Pointwise forward motion between two snapshots of `task.steps`. -/
def recsMono (a b : List StepRecord) : Prop :=
  List.Forall₂ (fun r₁ r₂ => statusRank r₁.status ≤ statusRank r₂.status) a b

/-- A step record that counts as done for task completion and progress. -/
def isDone (r : StepRecord) : Prop :=
  r.status = Status.COMPLETED ∨ r.status = Status.SKIPPED

/-- The `(name, mapped result)` pairs of the `COMPLETED` records, in order. -/
def completedResults (recs : List StepRecord) : List (String × Obj) :=
  recs.filterMap (fun r =>
    match r.status, r.result with
    | Status.COMPLETED, some m => some (r.name, m)
    | _, _ => none)

/-- The property claimed of a run's effect trace by the specification:
every registry mutation is followed (later in the trace) by a serialization
of the task collection to durable storage. -/
def persistedAfterEachMutationB : List Event → Bool
  | [] => true
  | e :: rest =>
    (if eventIsPublish e then rest.any eventIsPersist else true) &&
      persistedAfterEachMutationB rest

/-- A deterministic stand-in for the Agent Invoker: the action `fail` throws,
every other action returns a one-field result object. -/
def exInvoker : Invoker := fun _ action _ =>
  if action = "fail" then Except.error "agent boom"
  else Except.ok [("out", Value.vstr "v")]

/-- An unconditional step bound to a succeeding action. -/
def exStepOk (nm : String) : StepDef :=
  { name := nm, agent := "a", action := "go", inputs := StepInputs.value [],
    outputMapping := none, condition := none }

/-- An unconditional step bound to a failing action. -/
def exStepFail (nm : String) : StepDef :=
  { name := nm, agent := "a", action := "fail", inputs := StepInputs.value [],
    outputMapping := none, condition := none }

/-- A step whose condition evaluates to false. -/
def exStepCondFalse (nm : String) : StepDef :=
  { name := nm, agent := "a", action := "go", inputs := StepInputs.value [],
    outputMapping := none, condition := some (fun _ => Except.ok false) }

/-- A step whose condition throws. -/
def exStepCondThrow (nm : String) : StepDef :=
  { name := nm, agent := "a", action := "go", inputs := StepInputs.value [],
    outputMapping := none, condition := some (fun _ => Except.error "boom") }

/-- A two-step workflow on which every invocation succeeds. -/
def exWfOk : Workflow := { steps := [exStepOk "s1", exStepOk "s2"] }

/-- A three-step workflow whose second step's invocation fails. -/
def exWfFail2 : Workflow := { steps := [exStepOk "s1", exStepFail "s2", exStepOk "s3"] }

/-- A one-step workflow whose only step is skipped by its condition. -/
def exWfSkip : Workflow := { steps := [exStepCondFalse "s1"] }

/-- A one-step workflow whose only step's condition throws. -/
def exWfCondThrow : Workflow := { steps := [exStepCondThrow "s1"] }

/-- A freshly created (never run) task over `exWfOk`. -/
def exTaskPending : Task := mkTask "t1" "wf" exWfOk [] "T0"

/-- A completed task with a non-empty results map. -/
def exTaskCompleted : Task :=
  { exTaskPending with status := Status.COMPLETED, results := [("x", Value.vnum 1)] }

theorem getKey_cons {α : Type} (p : String × α) (rest : List (String × α)) (k : String) :
    getKey (p :: rest) k = if p.1 = k then some p.2 else getKey rest k := rfl

theorem hasKey_append {α : Type} (l m : List (String × α)) (k : String) :
    hasKey (l ++ m) k = (hasKey l k || hasKey m k) := by
  simp [hasKey, List.any_append]

theorem getKey_append_of_hasKey_eq_false {α : Type} (l m : List (String × α)) (k : String)
    (h : hasKey l k = false) : getKey (l ++ m) k = getKey m k := by
  induction l with
  | nil => simp
  | cons p rest ih =>
    simp only [hasKey, List.any_cons, Bool.or_eq_false_iff, decide_eq_false_iff_not] at h
    simp only [List.cons_append, getKey, if_neg h.1]
    exact ih (by simpa [hasKey] using h.2)

theorem setKey_of_hasKey_eq_false {α : Type} (l : List (String × α)) (k : String) (v : α)
    (h : hasKey l k = false) : setKey l k v = l ++ [(k, v)] := by
  simp [setKey, h]

theorem getKey_setKey_self {α : Type} (l : List (String × α)) (k : String) (v : α) :
    getKey (setKey l k v) k = some v := by
  unfold setKey
  split
  · rename_i h
    induction l with
    | nil => simp [hasKey] at h
    | cons p rest ih =>
      by_cases hk : p.1 = k
      · rw [List.map_cons, if_pos hk, getKey_cons]
        simp
      · simp only [hasKey, List.any_cons, Bool.or_eq_true, decide_eq_true_eq] at h
        rcases h with h | h
        · exact absurd h hk
        · rw [List.map_cons, if_neg hk, getKey_cons, if_neg hk]
          exact ih (by simpa [hasKey] using h)
  · rename_i h
    rw [getKey_append_of_hasKey_eq_false _ _ _ (by simpa using h)]
    simp [getKey]

theorem completedResults_append (a b : List StepRecord) :
    completedResults (a ++ b) = completedResults a ++ completedResults b := by
  simp [completedResults, List.filterMap_append]

theorem completedResults_of_not_completed (l : List StepRecord)
    (h : ∀ r ∈ l, r.status ≠ Status.COMPLETED) : completedResults l = [] := by
  induction l with
  | nil => rfl
  | cons r rest ih =>
    have hr := h r (by simp)
    simp only [completedResults, List.filterMap_cons]
    have : (match r.status, r.result with
        | Status.COMPLETED, some m => some (r.name, m)
        | _, _ => none) = (none : Option (String × Obj)) := by
      cases hs : r.status <;> cases hres : r.result <;> first | rfl | exact absurd hs hr
    rw [this]
    exact ih (fun r hr' => h r (by simp [hr']))

theorem runSteps_length (invoker : Invoker) (params : Obj) (base : Task) :
    ∀ (zs : List (StepDef × StepRecord)) (sr : StepResults) (results : Obj),
      (runSteps invoker params base zs sr results).1.length = zs.length := by
  intro zs
  induction zs with
  | nil => intro sr results; simp [runSteps]
  | cons hd tl ih =>
    intro sr results
    obtain ⟨step, rec0⟩ := hd
    simp only [runSteps]
    split
    · simp
    · simp [ih]
    · split
      · simp
      · split
        · simp
        · simp [ih]

theorem runSteps_finished_isDone (invoker : Invoker) (params : Obj) (base : Task) :
    ∀ (zs : List (StepDef × StepRecord)) (sr : StepResults) (results : Obj),
      (runSteps invoker params base zs sr results).2.2.2.1 = StepsOutcome.finished →
      ∀ r ∈ (runSteps invoker params base zs sr results).1, isDone r := by
  intro zs
  induction zs with
  | nil => intro sr results _; simp [runSteps]
  | cons hd tl ih =>
    intro sr results hout
    obtain ⟨step, rec0⟩ := hd
    simp only [runSteps] at hout ⊢
    split at hout
    · exact absurd hout (by simp)
    · rename_i heq
      simp only at hout ⊢
      intro r hr
      rcases List.mem_cons.mp hr with rfl | hr
      · exact Or.inr rfl
      · exact ih sr results hout r hr
    · split at hout
      · exact absurd hout (by simp)
      · split at hout
        · exact absurd hout (by simp)
        · rename_i mapped hmap
          simp only at hout ⊢
          intro r hr
          rcases List.mem_cons.mp hr with rfl | hr
          · exact Or.inl rfl
          · exact ih _ _ hout r hr

theorem runSteps_stepFailed (invoker : Invoker) (params : Obj) (base : Task) :
    ∀ (zs : List (StepDef × StepRecord)) (sr : StepResults) (results : Obj) (m : String),
      (runSteps invoker params base zs sr results).2.2.2.1 = StepsOutcome.stepFailed m →
      ∃ pre p0 msg,
        zs.get? pre.length = some p0 ∧
        (runSteps invoker params base zs sr results).1 =
          pre ++ { p0.2 with status := Status.FAILED, error := some msg } ::
            (zs.map Prod.snd).drop (pre.length + 1) ∧
        m = "Failed to execute step " ++ p0.1.name ++ ": " ++ msg ∧
        (∀ r ∈ pre, isDone r) := by
  intro zs
  induction zs with
  | nil => intro sr results m h; simp [runSteps] at h
  | cons hd tl ih =>
    intro sr results m hout
    obtain ⟨step, rec0⟩ := hd
    simp only [runSteps] at hout ⊢
    split at hout
    · exact absurd hout (by simp)
    · rename_i heq
      simp only at hout ⊢
      obtain ⟨pre, p0, msg, hget, hrecs, hm, hpre⟩ := ih sr results m hout
      refine ⟨{ rec0 with status := Status.SKIPPED } :: pre, p0, msg, ?_, ?_, hm, ?_⟩
      · simpa using hget
      · simp only [List.length_cons, List.map_cons, List.drop_succ_cons, List.cons_append]
        rw [hrecs]
      · intro r hr
        rcases List.mem_cons.mp hr with rfl | hr
        · exact Or.inr rfl
        · exact hpre r hr
    · split at hout
      · rename_i msg hin
        simp only at hout ⊢
        obtain ⟨rfl⟩ : m = "Failed to execute step " ++ step.name ++ ": " ++ msg := by
          cases hout; rfl
        refine ⟨[], (step, rec0), msg, rfl, ?_, rfl, by simp⟩
        simp
      · split at hout
        · rename_i inputs hin msg hinv
          simp only at hout ⊢
          obtain ⟨rfl⟩ : m = "Failed to execute step " ++ step.name ++ ": " ++ msg := by
            cases hout; rfl
          refine ⟨[], (step, rec0), msg, rfl, ?_, rfl, by simp⟩
          simp
        · rename_i inputs hin mapped hinv
          simp only at hout ⊢
          obtain ⟨pre, p0, msg, hget, hrecs, hm, hpre⟩ := ih _ _ m hout
          refine ⟨{ rec0 with status := Status.COMPLETED, result := some mapped } :: pre,
            p0, msg, ?_, ?_, hm, ?_⟩
          · simpa using hget
          · simp only [List.length_cons, List.map_cons, List.drop_succ_cons, List.cons_append]
            rw [hrecs]
          · intro r hr
            rcases List.mem_cons.mp hr with rfl | hr
            · exact Or.inl rfl
            · exact hpre r hr

theorem runSteps_condThrew (invoker : Invoker) (params : Obj) (base : Task) :
    ∀ (zs : List (StepDef × StepRecord)) (sr : StepResults) (results : Obj) (m : String),
      (runSteps invoker params base zs sr results).2.2.2.1 = StepsOutcome.condThrew m →
      ∃ pre p0,
        zs.get? pre.length = some p0 ∧
        (runSteps invoker params base zs sr results).1 =
          pre ++ p0.2 :: (zs.map Prod.snd).drop (pre.length + 1) ∧
        (∀ r ∈ pre, isDone r) := by
  intro zs
  induction zs with
  | nil => intro sr results m h; simp [runSteps] at h
  | cons hd tl ih =>
    intro sr results m hout
    obtain ⟨step, rec0⟩ := hd
    simp only [runSteps] at hout ⊢
    split at hout
    · simp only at hout ⊢
      refine ⟨[], (step, rec0), rfl, ?_, by simp⟩
      simp
    · rename_i heq
      simp only at hout ⊢
      obtain ⟨pre, p0, hget, hrecs, hpre⟩ := ih sr results m hout
      refine ⟨{ rec0 with status := Status.SKIPPED } :: pre, p0, ?_, ?_, ?_⟩
      · simpa using hget
      · simp only [List.length_cons, List.map_cons, List.drop_succ_cons, List.cons_append]
        rw [hrecs]
      · intro r hr
        rcases List.mem_cons.mp hr with rfl | hr
        · exact Or.inr rfl
        · exact hpre r hr
    · split at hout
      · exact absurd hout (by simp)
      · split at hout
        · exact absurd hout (by simp)
        · rename_i inputs hin mapped hinv
          simp only at hout ⊢
          obtain ⟨pre, p0, hget, hrecs, hpre⟩ := ih _ _ m hout
          refine ⟨{ rec0 with status := Status.COMPLETED, result := some mapped } :: pre,
            p0, ?_, ?_, ?_⟩
          · simpa using hget
          · simp only [List.length_cons, List.map_cons, List.drop_succ_cons, List.cons_append]
            rw [hrecs]
          · intro r hr
            rcases List.mem_cons.mp hr with rfl | hr
            · exact Or.inl rfl
            · exact hpre r hr

theorem runSteps_results (invoker : Invoker) (params : Obj) (base : Task) :
    ∀ (zs : List (StepDef × StepRecord)) (sr : StepResults) (results : Obj),
      (∀ p ∈ zs, p.2.status = Status.PENDING ∧ p.2.result = none) →
      (runSteps invoker params base zs sr results).2.2.1 =
        List.foldl mergeObj results
          ((completedResults (runSteps invoker params base zs sr results).1).map Prod.snd) ∧
      (∀ r ∈ (runSteps invoker params base zs sr results).1,
        r.status = Status.SKIPPED → r.result = none) := by
  intro zs
  induction zs with
  | nil =>
    intro sr results _
    simp [runSteps, completedResults]
  | cons hd tl ih =>
    intro sr results hpend
    obtain ⟨step, rec0⟩ := hd
    have h0 : rec0.status = Status.PENDING ∧ rec0.result = none := hpend (step, rec0) (by simp)
    have htl : ∀ p ∈ tl, p.2.status = Status.PENDING ∧ p.2.result = none :=
      fun p hp => hpend p (by simp [hp])
    have htlRecs : ∀ r ∈ tl.map Prod.snd, r.status ≠ Status.COMPLETED := by
      intro r hr
      obtain ⟨p, hp, rfl⟩ := List.mem_map.mp hr
      rw [(htl p hp).1]; simp
    simp only [runSteps]
    split
    · constructor
      · rw [completedResults_of_not_completed]
        · simp
        · intro r hr
          rcases List.mem_cons.mp hr with rfl | hr
          · rw [h0.1]; simp
          · exact htlRecs r hr
      · intro r hr hs
        rcases List.mem_cons.mp hr with rfl | hr
        · exact h0.2
        · obtain ⟨p, hp, rfl⟩ := List.mem_map.mp hr
          exact (htl p hp).2
    · constructor
      · simp only [completedResults, List.filterMap_cons]
        have hIH := ih sr results htl
        simpa [completedResults] using hIH.1
      · intro r hr hs
        rcases List.mem_cons.mp hr with rfl | hr
        · exact h0.2
        · exact (ih sr results htl).2 r hr hs
    · split
      · constructor
        · rw [completedResults_of_not_completed]
          · simp
          · intro r hr
            rcases List.mem_cons.mp hr with rfl | hr
            · simp
            · exact htlRecs r hr
        · intro r hr hs
          rcases List.mem_cons.mp hr with rfl | hr
          · simp at hs
          · obtain ⟨p, hp, rfl⟩ := List.mem_map.mp hr
            exact (htl p hp).2
      · split
        · constructor
          · rw [completedResults_of_not_completed]
            · simp
            · intro r hr
              rcases List.mem_cons.mp hr with rfl | hr
              · simp
              · exact htlRecs r hr
          · intro r hr hs
            rcases List.mem_cons.mp hr with rfl | hr
            · simp at hs
            · obtain ⟨p, hp, rfl⟩ := List.mem_map.mp hr
              exact (htl p hp).2
        · rename_i inputs hin mapped hinv
          have hIH := ih (setKey sr step.name mapped) (mergeObj results mapped) htl
          constructor
          · simp only [completedResults, List.filterMap_cons]
            simpa [completedResults] using hIH.1
          · intro r hr hs
            rcases List.mem_cons.mp hr with rfl | hr
            · simp at hs
            · exact hIH.2 r hr hs

theorem runSteps_sr (invoker : Invoker) (params : Obj) (base : Task) :
    ∀ (zs : List (StepDef × StepRecord)) (sr : StepResults) (results : Obj),
      (∀ p ∈ zs, p.2.status = Status.PENDING ∧ p.2.result = none ∧ p.2.name = p.1.name) →
      (zs.map (fun p => p.1.name)).Nodup →
      (∀ p ∈ zs, hasKey sr p.1.name = false) →
      (runSteps invoker params base zs sr results).2.1 =
        sr ++ completedResults (runSteps invoker params base zs sr results).1 := by
  intro zs
  induction zs with
  | nil =>
    intro sr results _ _ _
    simp [runSteps, completedResults]
  | cons hd tl ih =>
    intro sr results hinit hnodup hfresh
    obtain ⟨step, rec0⟩ := hd
    have h0 := hinit (step, rec0) (by simp)
    have htl : ∀ p ∈ tl, p.2.status = Status.PENDING ∧ p.2.result = none ∧ p.2.name = p.1.name :=
      fun p hp => hinit p (by simp [hp])
    have htlRecs : ∀ r ∈ tl.map Prod.snd, r.status ≠ Status.COMPLETED := by
      intro r hr
      obtain ⟨p, hp, rfl⟩ := List.mem_map.mp hr
      rw [(htl p hp).1]; simp
    have hnodupTl : (tl.map (fun p => p.1.name)).Nodup := (List.nodup_cons.mp hnodup).2
    have hheadNotTl : step.name ∉ tl.map (fun p => p.1.name) := (List.nodup_cons.mp hnodup).1
    have hfreshTl : ∀ p ∈ tl, hasKey sr p.1.name = false :=
      fun p hp => hfresh p (by simp [hp])
    simp only [runSteps]
    split
    · rw [completedResults_of_not_completed]
      · simp
      · intro r hr
        rcases List.mem_cons.mp hr with rfl | hr
        · rw [h0.1]; simp
        · exact htlRecs r hr
    · rw [ih sr results htl hnodupTl hfreshTl]
      simp [completedResults, List.filterMap_cons]
    · split
      · rw [completedResults_of_not_completed]
        · simp
        · intro r hr
          rcases List.mem_cons.mp hr with rfl | hr
          · simp
          · exact htlRecs r hr
      · split
        · rw [completedResults_of_not_completed]
          · simp
          · intro r hr
            rcases List.mem_cons.mp hr with rfl | hr
            · simp
            · exact htlRecs r hr
        · rename_i inputs hin mapped hinv
          have hfresh0 : hasKey sr step.name = false := hfresh (step, rec0) (by simp)
          have hset : setKey sr step.name mapped = sr ++ [(step.name, mapped)] :=
            setKey_of_hasKey_eq_false sr step.name mapped hfresh0
          have hfresh2 : ∀ p ∈ tl, hasKey (setKey sr step.name mapped) p.1.name = false := by
            intro p hp
            rw [hset, hasKey_append]
            have h1 : hasKey sr p.1.name = false := hfreshTl p hp
            have h2 : hasKey [(step.name, mapped)] p.1.name = false := by
              simp only [hasKey, List.any_cons, List.any_nil, Bool.or_false,
                decide_eq_false_iff_not]
              intro hcontra
              exact hheadNotTl (by rw [hcontra]; exact List.mem_map_of_mem _ hp)
            rw [h1, h2]
            rfl
          rw [ih (setKey sr step.name mapped) (mergeObj results mapped) htl hnodupTl hfresh2]
          simp only [completedResults, List.filterMap_cons]
          rw [hset]
          have hname : rec0.name = step.name := h0.2.2
          simp [hname]

theorem runSteps_no_persist (invoker : Invoker) (params : Obj) (base : Task) :
    ∀ (zs : List (StepDef × StepRecord)) (sr : StepResults) (results : Obj)
      (done : List StepRecord),
      ∀ e ∈ (runSteps invoker params base zs sr results).2.2.2.2 done,
        eventIsPersist e = false := by
  intro zs
  induction zs with
  | nil => intro sr results done e he; simp [runSteps] at he
  | cons hd tl ih =>
    intro sr results done e he
    obtain ⟨step, rec0⟩ := hd
    simp only [runSteps] at he
    split at he
    · simp at he
    · exact ih _ _ _ e he
    · split at he
      · rcases (by simpa using he : _ ∨ _) with rfl | rfl <;> rfl
      · split at he
        · rcases (by simpa using he : _ ∨ _ ∨ _) with rfl | rfl | rfl <;> rfl
        · rcases List.mem_cons.mp he with rfl | he
          · rfl
          · rcases List.mem_cons.mp he with rfl | he
            · rfl
            · rcases List.mem_cons.mp he with rfl | he
              · rfl
              · exact ih _ _ _ e he

theorem runSteps_invoke_range (invoker : Invoker) (params : Obj) (base : Task) :
    ∀ (zs : List (StepDef × StepRecord)) (sr : StepResults) (results : Obj)
      (done : List StepRecord) (k : Nat) (ag ac : String) (inp : Obj),
      Event.invoke k ag ac inp ∈ (runSteps invoker params base zs sr results).2.2.2.2 done →
      done.length ≤ k ∧ k < done.length + zs.length := by
  intro zs
  induction zs with
  | nil => intro sr results done k ag ac inp he; simp [runSteps] at he
  | cons hd tl ih =>
    intro sr results done k ag ac inp he
    obtain ⟨step, rec0⟩ := hd
    simp only [runSteps] at he
    split at he
    · simp at he
    · have := ih _ _ _ k ag ac inp he
      simp only [List.length_append, List.length_cons, List.length_singleton, List.length_nil] at this ⊢
      omega
    · split at he
      · simp at he
      · split at he
        · simp only [List.mem_cons, List.mem_singleton] at he
          rcases he with h | h | h
          · exact absurd h (by simp)
          · obtain ⟨rfl, -⟩ := Event.invoke.inj h
            simp only [List.length_cons]
            omega
          · exact absurd h (by simp)
        · simp only [List.mem_cons] at he
          rcases he with h | h | h | he
          · exact absurd h (by simp)
          · obtain ⟨rfl, -⟩ := Event.invoke.inj h
            simp only [List.length_cons]
            omega
          · exact absurd h (by simp)
          · have := ih _ _ _ k ag ac inp he
            simp only [List.length_append, List.length_cons, List.length_singleton, List.length_nil] at this ⊢
            omega

theorem runSteps_append (invoker : Invoker) (params : Obj) (base : Task) :
    ∀ (zs₁ zs₂ : List (StepDef × StepRecord)) (sr : StepResults) (results : Obj),
      (runSteps invoker params base zs₁ sr results).2.2.2.1 = StepsOutcome.finished →
      (runSteps invoker params base (zs₁ ++ zs₂) sr results).1 =
        (runSteps invoker params base zs₁ sr results).1 ++
          (runSteps invoker params base zs₂ (runSteps invoker params base zs₁ sr results).2.1
            (runSteps invoker params base zs₁ sr results).2.2.1).1 ∧
      (runSteps invoker params base (zs₁ ++ zs₂) sr results).2.1 =
        (runSteps invoker params base zs₂ (runSteps invoker params base zs₁ sr results).2.1
          (runSteps invoker params base zs₁ sr results).2.2.1).2.1 ∧
      (runSteps invoker params base (zs₁ ++ zs₂) sr results).2.2.1 =
        (runSteps invoker params base zs₂ (runSteps invoker params base zs₁ sr results).2.1
          (runSteps invoker params base zs₁ sr results).2.2.1).2.2.1 ∧
      (runSteps invoker params base (zs₁ ++ zs₂) sr results).2.2.2.1 =
        (runSteps invoker params base zs₂ (runSteps invoker params base zs₁ sr results).2.1
          (runSteps invoker params base zs₁ sr results).2.2.1).2.2.2.1 := by
  intro zs₁
  induction zs₁ with
  | nil => intro zs₂ sr results _; simp [runSteps]
  | cons hd tl ih =>
    intro zs₂ sr results hfin
    obtain ⟨step, rec0⟩ := hd
    simp only [List.cons_append, runSteps] at hfin ⊢
    cases hcond : condEval sr step.condition with
    | error msg => rw [hcond] at hfin; simp at hfin
    | ok bv =>
      cases bv with
      | false =>
        simp only [hcond, List.append_eq] at hfin ⊢
        obtain ⟨e1, e2, e3, e4⟩ := ih zs₂ sr results hfin
        exact ⟨by rw [e1, List.cons_append], e2, e3, e4⟩
      | true =>
        simp only [hcond] at hfin ⊢
        cases hin : computeInputs params sr step.inputs with
        | error msg => simp only [hin] at hfin; simp at hfin
        | ok inputs =>
          simp only [hin] at hfin ⊢
          cases hinv : invokeAndMap invoker step inputs with
          | error msg => simp only [hinv] at hfin; simp at hfin
          | ok mapped =>
            simp only [hinv, List.append_eq] at hfin ⊢
            obtain ⟨e1, e2, e3, e4⟩ :=
              ih zs₂ (setKey sr step.name mapped) (mergeObj results mapped) hfin
            exact ⟨by rw [e1, List.cons_append], e2, e3, e4⟩

theorem runSteps_invoke_status (invoker : Invoker) (params : Obj) (base : Task) :
    ∀ (zs : List (StepDef × StepRecord)) (sr : StepResults) (results : Obj)
      (done : List StepRecord) (k : Nat) (ag ac : String) (inp : Obj),
      Event.invoke k ag ac inp ∈ (runSteps invoker params base zs sr results).2.2.2.2 done →
      ∃ r, (runSteps invoker params base zs sr results).1.get? (k - done.length) = some r ∧
        (r.status = Status.COMPLETED ∨ r.status = Status.FAILED) := by
  intro zs
  induction zs with
  | nil => intro sr results done k ag ac inp he; simp [runSteps] at he
  | cons hd tl ih =>
    intro sr results done k ag ac inp he
    obtain ⟨step, rec0⟩ := hd
    simp only [runSteps] at he ⊢
    split at he
    · simp at he
    · rename_i heq
      simp only at he ⊢
      have hrange := runSteps_invoke_range invoker params base tl _ _ _ k ag ac inp he
      simp only [List.length_append, List.length_cons, List.length_nil] at hrange
      obtain ⟨r, hg, hs⟩ := ih _ _ _ k ag ac inp he
      refine ⟨r, ?_, hs⟩
      have hk : k - done.length = (k - (done.length + 1)) + 1 := by omega
      rw [hk, List.get?_cons_succ]
      simpa using hg
    · split at he
      · simp at he
      · split at he
        · rename_i msg hinv
          simp only [List.mem_cons, List.mem_singleton] at he
          rcases he with h | h | h
          · exact absurd h (by simp)
          · obtain ⟨rfl, -⟩ := Event.invoke.inj h
            refine ⟨{ rec0 with status := Status.FAILED, error := some msg }, ?_, Or.inr rfl⟩
            simp
          · exact absurd h (by simp)
        · rename_i mapped hinv
          simp only [List.mem_cons] at he
          rcases he with h | h | h | he
          · exact absurd h (by simp)
          · obtain ⟨rfl, -⟩ := Event.invoke.inj h
            refine ⟨{ rec0 with status := Status.COMPLETED, result := some mapped }, ?_,
              Or.inl rfl⟩
            simp
          · exact absurd h (by simp)
          · have hrange := runSteps_invoke_range invoker params base tl _ _ _ k ag ac inp he
            simp only [List.length_append, List.length_cons, List.length_nil] at hrange
            obtain ⟨r, hg, hs⟩ := ih _ _ _ k ag ac inp he
            refine ⟨r, ?_, hs⟩
            have hk : k - done.length = (k - (done.length + 1)) + 1 := by omega
            rw [hk, List.get?_cons_succ]
            simpa using hg

theorem statusRank_le_two (s : Status) : statusRank s ≤ 2 := by
  cases s <;> simp [statusRank]

theorem recsMono_refl (l : List StepRecord) : recsMono l l :=
  List.forall₂_same.mpr (fun _ _ => le_refl _)

theorem recsMono_trans : ∀ {a b c : List StepRecord}, recsMono a b → recsMono b c →
    recsMono a c := by
  intro a b c h₁
  induction h₁ generalizing c with
  | nil => intro h₂; cases h₂; exact List.Forall₂.nil
  | cons hab _ ih =>
    intro h₂
    cases h₂ with
    | cons hbc htail => exact List.Forall₂.cons (le_trans hab hbc) (ih htail)

theorem recsMono_cons_mid (done rest : List StepRecord) (r₁ r₂ : StepRecord)
    (h : statusRank r₁.status ≤ statusRank r₂.status) :
    recsMono (done ++ r₁ :: rest) (done ++ r₂ :: rest) :=
  List.rel_append (recsMono_refl done) (List.Forall₂.cons h (recsMono_refl rest))

theorem chain'_replace_head {a b : List StepRecord} {l : List (List StepRecord)}
    (hab : recsMono a b) (h : List.Chain' recsMono (b :: l)) :
    List.Chain' recsMono (a :: l) := by
  cases l with
  | nil => exact List.chain'_singleton a
  | cons c l' =>
    rw [List.chain'_cons] at h ⊢
    exact ⟨recsMono_trans hab h.1, h.2⟩

theorem chain'_recsMono_lengths : ∀ (l : List (List StepRecord)) (a : List StepRecord),
    List.Chain' recsMono (a :: l) → ∀ b ∈ l, b.length = a.length := by
  intro l
  induction l with
  | nil => intro a _ b hb; simp at hb
  | cons c l' ih =>
    intro a h b hb
    rw [List.chain'_cons] at h
    have hca : c.length = a.length := (List.Forall₂.length_eq h.1).symm
    rcases List.mem_cons.mp hb with rfl | hb
    · exact hca
    · rw [ih c h.2 b hb, hca]

theorem runSteps_mono (invoker : Invoker) (params : Obj) (base : Task) :
    ∀ (zs : List (StepDef × StepRecord)) (sr : StepResults) (results : Obj)
      (done : List StepRecord),
      (∀ p ∈ zs, p.2.status = Status.PENDING) →
      List.Chain' recsMono
        ((done ++ zs.map Prod.snd) ::
          ((publishedTasks ((runSteps invoker params base zs sr results).2.2.2.2 done)).map
              Task.steps ++
            [done ++ (runSteps invoker params base zs sr results).1])) := by
  intro zs
  induction zs with
  | nil =>
    intro sr results done _
    simp only [runSteps, List.map_nil, List.append_nil, publishedTasks]
    exact List.chain'_cons.mpr ⟨recsMono_refl done, List.chain'_singleton _⟩
  | cons hd tl ih =>
    intro sr results done hpend
    obtain ⟨step, rec0⟩ := hd
    have h0 : rec0.status = Status.PENDING := hpend (step, rec0) (by simp)
    have htl : ∀ p ∈ tl, p.2.status = Status.PENDING := fun p hp => hpend p (by simp [hp])
    simp only [runSteps, List.map_cons]
    split
    · simp only [publishedTasks, List.map_nil, List.nil_append]
      exact List.chain'_cons.mpr ⟨recsMono_refl _, List.chain'_singleton _⟩
    · have hIH := ih sr results (done ++ [{ rec0 with status := Status.SKIPPED }]) htl
      simp only [List.append_assoc, List.singleton_append] at hIH
      refine chain'_replace_head ?_ hIH
      exact recsMono_cons_mid done (tl.map Prod.snd) rec0 _ (by rw [h0]; exact Nat.zero_le _)
    · split
      · simp only [publishedTasks, List.map_cons, List.map_nil, List.cons_append,
          List.nil_append]
        refine List.chain'_cons.mpr ⟨?_, List.chain'_cons.mpr ⟨?_,
          List.chain'_cons.mpr ⟨recsMono_refl _, List.chain'_singleton _⟩⟩⟩
        · exact recsMono_cons_mid done (tl.map Prod.snd) rec0 _ (by rw [h0]; simp [statusRank])
        · exact recsMono_cons_mid done (tl.map Prod.snd) _ _ (by simp [statusRank])
      · split
        · simp only [publishedTasks, List.map_cons, List.map_nil, List.cons_append,
            List.nil_append]
          refine List.chain'_cons.mpr ⟨?_, List.chain'_cons.mpr ⟨?_,
            List.chain'_cons.mpr ⟨recsMono_refl _, List.chain'_singleton _⟩⟩⟩
          · exact recsMono_cons_mid done (tl.map Prod.snd) rec0 _ (by rw [h0]; simp [statusRank])
          · exact recsMono_cons_mid done (tl.map Prod.snd) _ _ (by simp [statusRank])
        · rename_i inputs hin mapped hinv
          have hIH := ih (setKey sr step.name mapped) (mergeObj results mapped)
            (done ++ [{ rec0 with status := Status.COMPLETED, result := some mapped }]) htl
          simp only [List.append_assoc, List.singleton_append] at hIH
          simp only [publishedTasks, List.map_cons, List.cons_append]
          refine List.chain'_cons.mpr ⟨?_, List.chain'_cons.mpr ⟨?_, hIH⟩⟩
          · exact recsMono_cons_mid done (tl.map Prod.snd) rec0 _ (by rw [h0]; simp [statusRank])
          · exact recsMono_cons_mid done (tl.map Prod.snd) _ _ (by simp [statusRank])

theorem zip_map_self {α β : Type} (l : List α) (f : α → β) :
    l.zip (l.map f) = l.map (fun s => (s, f s)) := by
  induction l with
  | nil => rfl
  | cons a l ih => simp [ih]

theorem mkTask_zip_init (wf : Workflow) (taskId workflowName : String) (params : Obj)
    (startedAt : String) :
    ∀ p ∈ wf.steps.zip (mkTask taskId workflowName wf params startedAt).steps,
      p.2.status = Status.PENDING ∧ p.2.result = none ∧ p.2.name = p.1.name := by
  intro p hp
  simp only [mkTask] at hp
  rw [zip_map_self] at hp
  obtain ⟨s, hs, rfl⟩ := List.mem_map.mp hp
  exact ⟨rfl, rfl, rfl⟩

theorem mkTask_steps_eq_zip_snd (wf : Workflow) (taskId workflowName : String) (params : Obj)
    (startedAt : String) :
    (wf.steps.zip (mkTask taskId workflowName wf params startedAt).steps).map Prod.snd =
      (mkTask taskId workflowName wf params startedAt).steps := by
  simp only [mkTask]
  rw [zip_map_self, List.map_map]
  rfl

theorem mkTask_zip_length (wf : Workflow) (taskId workflowName : String) (params : Obj)
    (startedAt : String) :
    (wf.steps.zip (mkTask taskId workflowName wf params startedAt).steps).length =
      wf.steps.length := by
  simp only [mkTask]
  rw [zip_map_self, List.length_map]

/-- C8: `startWorkflow` with a registered name creates a task whose `steps`
has one `PENDING` record (with null result) per workflow step, task status
`PENDING` and empty results, and publishes it under the new id; with an
unregistered name it throws `Workflow "name" not found` and leaves the
registry unchanged (no task is created). -/
theorem startWorkflow_creates_pending_task (workflows : List (String × Workflow))
    (tasks : List (String × Task)) (workflowName : String) (params : Obj)
    (taskId startedAt : String) :
    (getKey workflows workflowName = none →
      startWorkflow workflows tasks workflowName params taskId startedAt =
        (Except.error ("Workflow \"" ++ workflowName ++ "\" not found"), tasks)) ∧
    (∀ wf, getKey workflows workflowName = some wf →
      startWorkflow workflows tasks workflowName params taskId startedAt =
        (Except.ok taskId,
         setKey tasks taskId (mkTask taskId workflowName wf params startedAt)) ∧
      getKey (setKey tasks taskId (mkTask taskId workflowName wf params startedAt)) taskId =
        some (mkTask taskId workflowName wf params startedAt) ∧
      (mkTask taskId workflowName wf params startedAt).steps.length = wf.steps.length ∧
      (∀ r ∈ (mkTask taskId workflowName wf params startedAt).steps,
        r.status = Status.PENDING ∧ r.result = none) ∧
      (mkTask taskId workflowName wf params startedAt).status = Status.PENDING ∧
      (mkTask taskId workflowName wf params startedAt).results = []) := by
  constructor
  · intro h
    simp [startWorkflow, h]
  · intro wf h
    refine ⟨by simp [startWorkflow, h], getKey_setKey_self _ _ _, by simp [mkTask], ?_, rfl, rfl⟩
    intro r hr
    simp only [mkTask] at hr
    obtain ⟨s, hs, rfl⟩ := List.mem_map.mp hr
    exact ⟨rfl, rfl⟩

/-- C8 witness: evaluating `startWorkflow` on a concrete registry, once with
an unknown and once with a registered workflow name. -/
theorem startWorkflow_creates_pending_task_witness :
    startWorkflow [("full", exWfOk)] [] "nope" [] "t1" "T0" =
      (Except.error ("Workflow \"nope\" not found"), []) ∧
    startWorkflow [("full", exWfOk)] [] "full" [] "t1" "T0" =
      (Except.ok "t1", setKey [] "t1" (mkTask "t1" "full" exWfOk [] "T0")) ∧
    (mkTask "t1" "full" exWfOk [] "T0").steps.length = exWfOk.steps.length :=
  ⟨(startWorkflow_creates_pending_task [("full", exWfOk)] [] "nope" [] "t1" "T0").1 rfl,
   ((startWorkflow_creates_pending_task [("full", exWfOk)] [] "full" [] "t1" "T0").2
     exWfOk rfl).1,
   ((startWorkflow_creates_pending_task [("full", exWfOk)] [] "full" [] "t1" "T0").2
     exWfOk rfl).2.2.1⟩

/-- C6: `cancelTask` throws `TaskNotFound` on an unknown id, throws
`InvalidState` whenever the status is neither `PENDING` nor `RUNNING`
(in particular on `COMPLETED` and `FAILED` tasks), and otherwise succeeds,
setting status `CANCELLED` and a completion timestamp. -/
theorem cancelTask_spec (tasks : List (String × Task)) (taskId now : String) :
    (getKey tasks taskId = none →
      cancelTask tasks taskId now =
        (Except.error ("Task " ++ taskId ++ " not found"), tasks)) ∧
    (∀ t, getKey tasks taskId = some t →
      ¬(t.status = Status.PENDING ∨ t.status = Status.RUNNING) →
      cancelTask tasks taskId now =
        (Except.error ("Task " ++ taskId ++ " cannot be cancelled (status: " ++
          t.status.toStr ++ ")"), tasks)) ∧
    (∀ t, getKey tasks taskId = some t →
      (t.status = Status.PENDING ∨ t.status = Status.RUNNING) →
      cancelTask tasks taskId now =
        (Except.ok true,
         setKey tasks taskId { t with status := Status.CANCELLED, completed_at := some now }) ∧
      getKey (setKey tasks taskId
          { t with status := Status.CANCELLED, completed_at := some now }) taskId =
        some { t with status := Status.CANCELLED, completed_at := some now } ∧
      ({ t with status := Status.CANCELLED, completed_at := some now } : Task).status =
        Status.CANCELLED ∧
      ({ t with status := Status.CANCELLED, completed_at := some now } : Task).completed_at =
        some now) := by
  refine ⟨?_, ?_, ?_⟩
  · intro h
    simp [cancelTask, h]
  · intro t h hns
    push_neg at hns
    simp only [cancelTask, h]
    rw [if_pos ⟨hns.2, hns.1⟩]
  · intro t h hs
    have hcond : ¬(t.status ≠ Status.RUNNING ∧ t.status ≠ Status.PENDING) := by
      rcases hs with hs | hs <;> simp [hs]
    refine ⟨?_, getKey_setKey_self _ _ _, rfl, rfl⟩
    simp only [cancelTask, h]
    rw [if_neg hcond]

/-- C6 witness: `cancelTask` evaluated on an empty registry, on a completed
task, and on a pending task. -/
theorem cancelTask_spec_witness :
    cancelTask [] "x" "T1" = (Except.error ("Task x not found"), []) ∧
    cancelTask [("t1", exTaskCompleted)] "t1" "T1" =
      (Except.error ("Task t1 cannot be cancelled (status: COMPLETED)"), [("t1", exTaskCompleted)]) ∧
    cancelTask [("t1", exTaskPending)] "t1" "T1" =
      (Except.ok true, setKey [("t1", exTaskPending)] "t1"
        { exTaskPending with status := Status.CANCELLED, completed_at := some "T1" }) :=
  ⟨(cancelTask_spec [] "x" "T1").1 rfl,
   (cancelTask_spec [("t1", exTaskCompleted)] "t1" "T1").2.1 exTaskCompleted rfl
     (by intro h; rcases h with h | h <;> exact absurd h (by decide)),
   ((cancelTask_spec [("t1", exTaskPending)] "t1" "T1").2.2 exTaskPending rfl
     (Or.inl rfl)).1⟩

/-- C9: `getTaskStatus` and `getTaskArtifacts` are read-only and
deterministic: each returns the registry unchanged, and calling either twice
with no intervening mutation returns the identical result both times. -/
theorem queries_idempotent (tasks : List (String × Task)) (taskId : String) :
    (getTaskStatus tasks taskId).2 = tasks ∧
    getTaskStatus (getTaskStatus tasks taskId).2 taskId = getTaskStatus tasks taskId ∧
    (getTaskArtifacts tasks taskId).2 = tasks ∧
    getTaskArtifacts (getTaskArtifacts tasks taskId).2 taskId =
      getTaskArtifacts tasks taskId := by
  have h1 : (getTaskStatus tasks taskId).2 = tasks := by
    rcases h : getKey tasks taskId with - | t <;> simp [getTaskStatus, h]
  have h2 : (getTaskArtifacts tasks taskId).2 = tasks := by
    rcases h : getKey tasks taskId with - | t
    · simp [getTaskArtifacts, h]
    · simp only [getTaskArtifacts, h]
      split <;> rfl
  exact ⟨h1, by rw [h1], h2, by rw [h2]⟩

/-- C7 counterexample: on a COMPLETED task, `getTaskArtifacts` does not
return the task's results map: it returns the hard-coded mock artifact map,
which contains the key `example.js` even though the task's results map does
not. -/
theorem getTaskArtifacts_not_results_map :
    exTaskCompleted.status = Status.COMPLETED ∧
    getKey [("t1", exTaskCompleted)] "t1" = some exTaskCompleted ∧
    ((getTaskArtifacts [("t1", exTaskCompleted)] "t1").1.toOption.bind
      (fun a => getKey a "example.js")).isSome = true ∧
    (getKey exTaskCompleted.results "example.js").isSome = false := by
  exact ⟨rfl, rfl, rfl, rfl⟩

/-- C7 amended: `getTaskArtifacts` throws `Task ... not found` on an unknown
id and `Task ... is not completed` whenever the status is not `COMPLETED`,
regardless of how many steps succeeded; on a `COMPLETED` task it returns the
fixed mock artifact map — `results.json` holding the JSON-serialized results
plus two hard-coded files — rather than the task's results map itself. -/
theorem getTaskArtifacts_spec (tasks : List (String × Task)) (taskId : String) :
    (getKey tasks taskId = none →
      getTaskArtifacts tasks taskId =
        (Except.error ("Task " ++ taskId ++ " not found"), tasks)) ∧
    (∀ t, getKey tasks taskId = some t → t.status ≠ Status.COMPLETED →
      getTaskArtifacts tasks taskId =
        (Except.error ("Task " ++ taskId ++ " is not completed (status: " ++
          t.status.toStr ++ ")"), tasks)) ∧
    (∀ t, getKey tasks taskId = some t → t.status = Status.COMPLETED →
      getTaskArtifacts tasks taskId =
        (Except.ok
          [("results.json", Value.vstr (stringifyObj 0 t.results)),
           ("example.js", Value.vstr "console.log(\"Hello from the generated code!\");"),
           ("README.md",
            Value.vstr "# Generated Module\n\nThis module was generated by Happiness Agent.")],
         tasks)) := by
  refine ⟨?_, ?_, ?_⟩
  · intro h
    simp [getTaskArtifacts, h]
  · intro t h hne
    simp only [getTaskArtifacts, h]
    rw [if_pos hne]
  · intro t h heq
    simp only [getTaskArtifacts, h]
    rw [if_neg (by simp [heq])]

/-- C7 witness: `getTaskArtifacts` evaluated on an empty registry, on a
pending task, and on a completed task. -/
theorem getTaskArtifacts_spec_witness :
    getTaskArtifacts [] "x" = (Except.error ("Task x not found"), []) ∧
    getTaskArtifacts [("t1", exTaskPending)] "t1" =
      (Except.error ("Task t1 is not completed (status: PENDING)"), [("t1", exTaskPending)]) ∧
    getTaskArtifacts [("t1", exTaskCompleted)] "t1" =
      (Except.ok
        [("results.json", Value.vstr (stringifyObj 0 exTaskCompleted.results)),
         ("example.js", Value.vstr "console.log(\"Hello from the generated code!\");"),
         ("README.md",
          Value.vstr "# Generated Module\n\nThis module was generated by Happiness Agent.")],
       [("t1", exTaskCompleted)]) :=
  ⟨(getTaskArtifacts_spec [] "x").1 rfl,
   (getTaskArtifacts_spec [("t1", exTaskPending)] "t1").2.1 exTaskPending rfl (by decide),
   (getTaskArtifacts_spec [("t1", exTaskCompleted)] "t1").2.2 exTaskCompleted rfl rfl⟩

/-- C5 counterexample: a concrete successful run mutates the registry
(the trace contains publish events) yet the trace contains no persistence
event at all, so it is false that every mutation is followed by serializing
the task collection to durable storage. -/
theorem run_mutations_not_persisted :
    ((startAndRun exInvoker exWfOk "full" [] "t1" "T0" "T1").2.2).any eventIsPublish = true ∧
    persistedAfterEachMutationB
      (startAndRun exInvoker exWfOk "full" [] "t1" "T0" "T1").2.2 = false :=
  ⟨rfl, rfl⟩

/-- C5 amended: every mutation during a workflow run updates only the
in-memory task map (the trace starts with the publication of the created
task); the engine never serializes the task collection to durable storage —
no event of a run is a `saveTasksToDisk` persistence event. -/
theorem engine_run_never_persists (invoker : Invoker) (wf : Workflow) (workflowName : String)
    (params : Obj) (taskId startedAt now : String) :
    (∀ e ∈ (startAndRun invoker wf workflowName params taskId startedAt now).2.2,
      eventIsPersist e = false) ∧
    (startAndRun invoker wf workflowName params taskId startedAt now).2.2.head? =
      some (Event.publish (mkTask taskId workflowName wf params startedAt)) := by
  constructor
  · intro e he
    cases e with
    | publish t => rfl
    | invoke k a b i => rfl
    | persist =>
      exfalso
      have hnp := runSteps_no_persist invoker params
        { mkTask taskId workflowName wf params startedAt with status := Status.RUNNING }
        (wf.steps.zip (mkTask taskId workflowName wf params startedAt).steps) []
        (mkTask taskId workflowName wf params startedAt).results []
      simp only [startAndRun, executeWorkflow] at he
      revert he
      rcases hout : (runSteps invoker params
          { mkTask taskId workflowName wf params startedAt with status := Status.RUNNING }
          (wf.steps.zip (mkTask taskId workflowName wf params startedAt).steps) []
          (mkTask taskId workflowName wf params startedAt).results).2.2.2.1 with - | m | m <;>
        intro he <;>
        simp at he <;>
        simpa [eventIsPersist] using hnp Event.persist he
  · simp only [startAndRun, executeWorkflow]
    rcases hout : (runSteps invoker params
        { mkTask taskId workflowName wf params startedAt with status := Status.RUNNING }
        (wf.steps.zip (mkTask taskId workflowName wf params startedAt).steps) []
        (mkTask taskId workflowName wf params startedAt).results).2.2.2.1 with - | m | m <;>
      rfl

/-- C1: the run launched by `startWorkflow` never propagates an exception to
the caller: whenever the run does not finish normally (a step failed or a
condition threw), the failure is captured into the task — final status
`FAILED` with the error message recorded in the task's `error` field. -/
theorem startWorkflow_captures_failures (invoker : Invoker) (wf : Workflow)
    (workflowName : String) (params : Obj) (taskId startedAt now : String)
    (h : (startAndRun invoker wf workflowName params taskId startedAt now).2.1 ≠
      StepsOutcome.finished) :
    (startAndRun invoker wf workflowName params taskId startedAt now).1.status =
      Status.FAILED ∧
    (startAndRun invoker wf workflowName params taskId startedAt now).1.error.isSome =
      true := by
  simp only [startAndRun, executeWorkflow] at h ⊢
  revert h
  rcases hout : (runSteps invoker params
      { mkTask taskId workflowName wf params startedAt with status := Status.RUNNING }
      (wf.steps.zip (mkTask taskId workflowName wf params startedAt).steps) []
      (mkTask taskId workflowName wf params startedAt).results).2.2.2.1 with - | m | m <;>
    intro h
  · simp at h
  · exact ⟨rfl, rfl⟩
  · exact ⟨rfl, rfl⟩

/-- C1 witness: a concrete run whose second step's invocation fails: the
outcome is not `finished`, the final status is `FAILED` and the error field
is set. -/
theorem startWorkflow_captures_failures_witness :
    (startAndRun exInvoker exWfFail2 "full" [] "t1" "T0" "T1").1.status = Status.FAILED ∧
    (startAndRun exInvoker exWfFail2 "full" [] "t1" "T0" "T1").1.error.isSome = true :=
  startWorkflow_captures_failures exInvoker exWfFail2 "full" [] "t1" "T0" "T1" (by decide)

/-- C3: when a step's inputs computation or invocation fails, the run halts
at that step: its record is `FAILED` with the error text, the task is
`FAILED` with a composed message naming the failing step, every later record
remains `PENDING` with a null result, every earlier record is `COMPLETED` or
`SKIPPED`, and the task's results map keeps exactly the merged outputs of the
steps completed before the failure (no rollback). -/
theorem first_failure_halts_run (invoker : Invoker) (wf : Workflow)
    (workflowName : String) (params : Obj) (taskId startedAt now : String) (m : String)
    (h : (startAndRun invoker wf workflowName params taskId startedAt now).2.1 =
      StepsOutcome.stepFailed m) :
    ∃ pre f suf msg,
      (startAndRun invoker wf workflowName params taskId startedAt now).1.steps =
        pre ++ f :: suf ∧
      f.status = Status.FAILED ∧
      f.error = some msg ∧
      m = "Failed to execute step " ++ f.name ++ ": " ++ msg ∧
      (startAndRun invoker wf workflowName params taskId startedAt now).1.status =
        Status.FAILED ∧
      (startAndRun invoker wf workflowName params taskId startedAt now).1.error = some m ∧
      (∀ r ∈ suf, r.status = Status.PENDING ∧ r.result = none) ∧
      (∀ r ∈ pre, isDone r) ∧
      (startAndRun invoker wf workflowName params taskId startedAt now).1.results =
        List.foldl mergeObj [] ((completedResults pre).map Prod.snd) := by
  have hinit := mkTask_zip_init wf taskId workflowName params startedAt
  revert h
  simp only [startAndRun, executeWorkflow]
  rcases hout : (runSteps invoker params
      { mkTask taskId workflowName wf params startedAt with status := Status.RUNNING }
      (wf.steps.zip (mkTask taskId workflowName wf params startedAt).steps) []
      (mkTask taskId workflowName wf params startedAt).results).2.2.2.1 with - | m' | m' <;>
    intro h
  · exact absurd h (by simp)
  · obtain rfl : m = m' := (StepsOutcome.stepFailed.inj h).symm
    obtain ⟨pre, p0, msg, hget, hrecs, hm, hpre⟩ :=
      runSteps_stepFailed invoker params
        { mkTask taskId workflowName wf params startedAt with status := Status.RUNNING }
        (wf.steps.zip (mkTask taskId workflowName wf params startedAt).steps) []
        (mkTask taskId workflowName wf params startedAt).results m hout
    have hp0mem : p0 ∈ wf.steps.zip (mkTask taskId workflowName wf params startedAt).steps :=
      List.get?_mem hget
    have hp0 := hinit p0 hp0mem
    have hres := runSteps_results invoker params
      { mkTask taskId workflowName wf params startedAt with status := Status.RUNNING }
      (wf.steps.zip (mkTask taskId workflowName wf params startedAt).steps) []
      (mkTask taskId workflowName wf params startedAt).results
      (fun p hp => ⟨(hinit p hp).1, (hinit p hp).2.1⟩)
    refine ⟨pre, { p0.2 with status := Status.FAILED, error := some msg },
      ((wf.steps.zip (mkTask taskId workflowName wf params startedAt).steps).map
        Prod.snd).drop (pre.length + 1), msg, ?_, rfl, rfl, ?_, rfl, rfl, ?_, hpre, ?_⟩
    · simpa using hrecs
    · simpa [hp0.2.2] using hm
    · intro r hr
      have hr' := List.mem_of_mem_drop hr
      obtain ⟨p, hp, rfl⟩ := List.mem_map.mp hr'
      exact ⟨(hinit p hp).1, (hinit p hp).2.1⟩
    · have h1 := hres.1
      rw [hrecs] at h1
      rw [completedResults_append] at h1
      have h2 : completedResults
          ({ p0.2 with status := Status.FAILED, error := some msg } ::
            ((wf.steps.zip (mkTask taskId workflowName wf params startedAt).steps).map
              Prod.snd).drop (pre.length + 1)) = [] := by
        apply completedResults_of_not_completed
        intro r hr
        rcases List.mem_cons.mp hr with rfl | hr
        · simp
        · have hr' := List.mem_of_mem_drop hr
          obtain ⟨p, hp, rfl⟩ := List.mem_map.mp hr'
          rw [(hinit p hp).1]
          simp
      rw [h2] at h1
      simpa using h1
  · exact absurd h (by simp)

/-- C3 witness: a three-step workflow whose second step's invocation fails:
the theorem applied at it yields the decomposition with the failing record in
the middle. -/
theorem first_failure_halts_run_witness :
    ∃ pre f suf msg,
      (startAndRun exInvoker exWfFail2 "full" [] "t1" "T0" "T1").1.steps =
        pre ++ f :: suf ∧
      f.status = Status.FAILED ∧
      f.error = some msg ∧
      "Failed to execute step s2: agent boom" =
        "Failed to execute step " ++ f.name ++ ": " ++ msg ∧
      (startAndRun exInvoker exWfFail2 "full" [] "t1" "T0" "T1").1.status = Status.FAILED ∧
      (startAndRun exInvoker exWfFail2 "full" [] "t1" "T0" "T1").1.error =
        some "Failed to execute step s2: agent boom" ∧
      (∀ r ∈ suf, r.status = Status.PENDING ∧ r.result = none) ∧
      (∀ r ∈ pre, isDone r) ∧
      (startAndRun exInvoker exWfFail2 "full" [] "t1" "T0" "T1").1.results =
        List.foldl mergeObj [] ((completedResults pre).map Prod.snd) :=
  first_failure_halts_run exInvoker exWfFail2 "full" [] "t1" "T0" "T1"
    "Failed to execute step s2: agent boom" (by decide)

theorem publishedTasks_append : ∀ (a b : List Event),
    publishedTasks (a ++ b) = publishedTasks a ++ publishedTasks b := by
  intro a
  induction a with
  | nil => intro b; rfl
  | cons e rest ih =>
    intro b
    cases e <;> simp [publishedTasks, ih]

theorem startAndRun_final (invoker : Invoker) (wf : Workflow) (workflowName : String)
    (params : Obj) (taskId startedAt now : String) :
    (startAndRun invoker wf workflowName params taskId startedAt now).1.steps =
      (runSteps invoker params
        { mkTask taskId workflowName wf params startedAt with status := Status.RUNNING }
        (wf.steps.zip (mkTask taskId workflowName wf params startedAt).steps) []
        (mkTask taskId workflowName wf params startedAt).results).1 ∧
    (startAndRun invoker wf workflowName params taskId startedAt now).1.status =
      (match (runSteps invoker params
          { mkTask taskId workflowName wf params startedAt with status := Status.RUNNING }
          (wf.steps.zip (mkTask taskId workflowName wf params startedAt).steps) []
          (mkTask taskId workflowName wf params startedAt).results).2.2.2.1 with
        | StepsOutcome.finished => Status.COMPLETED
        | _ => Status.FAILED) ∧
    (startAndRun invoker wf workflowName params taskId startedAt now).2.1 =
      (runSteps invoker params
        { mkTask taskId workflowName wf params startedAt with status := Status.RUNNING }
        (wf.steps.zip (mkTask taskId workflowName wf params startedAt).steps) []
        (mkTask taskId workflowName wf params startedAt).results).2.2.2.1 ∧
    (startAndRun invoker wf workflowName params taskId startedAt now).1.results =
      (runSteps invoker params
        { mkTask taskId workflowName wf params startedAt with status := Status.RUNNING }
        (wf.steps.zip (mkTask taskId workflowName wf params startedAt).steps) []
        (mkTask taskId workflowName wf params startedAt).results).2.2.1 := by
  simp only [startAndRun, executeWorkflow]
  rcases hout : (runSteps invoker params
      { mkTask taskId workflowName wf params startedAt with status := Status.RUNNING }
      (wf.steps.zip (mkTask taskId workflowName wf params startedAt).steps) []
      (mkTask taskId workflowName wf params startedAt).results).2.2.2.1 with - | m | m <;>
    exact ⟨rfl, rfl, rfl, rfl⟩

theorem startAndRun_published (invoker : Invoker) (wf : Workflow) (workflowName : String)
    (params : Obj) (taskId startedAt now : String) :
    publishedTasks (startAndRun invoker wf workflowName params taskId startedAt now).2.2 =
      mkTask taskId workflowName wf params startedAt ::
      { mkTask taskId workflowName wf params startedAt with status := Status.RUNNING } ::
      publishedTasks ((runSteps invoker params
        { mkTask taskId workflowName wf params startedAt with status := Status.RUNNING }
        (wf.steps.zip (mkTask taskId workflowName wf params startedAt).steps) []
        (mkTask taskId workflowName wf params startedAt).results).2.2.2.2 []) ++
      (match (runSteps invoker params
          { mkTask taskId workflowName wf params startedAt with status := Status.RUNNING }
          (wf.steps.zip (mkTask taskId workflowName wf params startedAt).steps) []
          (mkTask taskId workflowName wf params startedAt).results).2.2.2.1 with
        | StepsOutcome.stepFailed _ => []
        | _ => [(startAndRun invoker wf workflowName params taskId startedAt now).1]) := by
  simp only [startAndRun, executeWorkflow]
  rcases hout : (runSteps invoker params
      { mkTask taskId workflowName wf params startedAt with status := Status.RUNNING }
      (wf.steps.zip (mkTask taskId workflowName wf params startedAt).steps) []
      (mkTask taskId workflowName wf params startedAt).results).2.2.2.1 with - | m | m <;>
    simp [publishedTasks, publishedTasks_append]

/-- C2 counterexample: in a run whose only step's condition throws, the final
task is `FAILED` while no step record is `FAILED` (the step stays `PENDING`),
so "task status is FAILED iff some StepRecord is FAILED" is false as stated. -/
theorem task_failed_without_failed_step :
    (startAndRun exInvoker exWfCondThrow "full" [] "t1" "T0" "T1").1.status =
      Status.FAILED ∧
    ∀ r ∈ (startAndRun exInvoker exWfCondThrow "full" [] "t1" "T0" "T1").1.steps,
      r.status ≠ Status.FAILED := by
  exact ⟨rfl, by decide⟩

/-- C2 amended: for every run, each published snapshot has exactly one step
record per workflow step; step statuses move only forward along the published
trace (`PENDING` before `RUNNING` before the terminal statuses), never
backward; the final task is `COMPLETED` iff every record is `COMPLETED` or
`SKIPPED`; and the final task is `FAILED` iff some record is `FAILED` or some
step's condition threw (that step remaining `PENDING`). -/
theorem task_invariants_hold (invoker : Invoker) (wf : Workflow) (workflowName : String)
    (params : Obj) (taskId startedAt now : String) :
    (∀ t ∈ publishedTasks
        (startAndRun invoker wf workflowName params taskId startedAt now).2.2,
      t.steps.length = wf.steps.length) ∧
    List.Chain' recsMono
      ((publishedTasks
        (startAndRun invoker wf workflowName params taskId startedAt now).2.2).map
          Task.steps) ∧
    ((startAndRun invoker wf workflowName params taskId startedAt now).1.status =
        Status.COMPLETED ↔
      ∀ r ∈ (startAndRun invoker wf workflowName params taskId startedAt now).1.steps,
        isDone r) ∧
    ((startAndRun invoker wf workflowName params taskId startedAt now).1.status =
        Status.FAILED ↔
      ((∃ r ∈ (startAndRun invoker wf workflowName params taskId startedAt now).1.steps,
          r.status = Status.FAILED) ∨
        ∃ m, (startAndRun invoker wf workflowName params taskId startedAt now).2.1 =
          StepsOutcome.condThrew m)) := by
  have hinit := mkTask_zip_init wf taskId workflowName params startedAt
  have hsnd := mkTask_steps_eq_zip_snd wf taskId workflowName params startedAt
  have hlen0 : (mkTask taskId workflowName wf params startedAt).steps.length =
      wf.steps.length := by simp [mkTask]
  have hmono := runSteps_mono invoker params
    { mkTask taskId workflowName wf params startedAt with status := Status.RUNNING }
    (wf.steps.zip (mkTask taskId workflowName wf params startedAt).steps) []
    (mkTask taskId workflowName wf params startedAt).results []
    (fun p hp => (hinit p hp).1)
  simp only [List.nil_append] at hmono
  obtain ⟨hsteps, hstatus, houtc, -⟩ :=
    startAndRun_final invoker wf workflowName params taskId startedAt now
  have hpub := startAndRun_published invoker wf workflowName params taskId startedAt now
  rcases hout : (runSteps invoker params
      { mkTask taskId workflowName wf params startedAt with status := Status.RUNNING }
      (wf.steps.zip (mkTask taskId workflowName wf params startedAt).steps) []
      (mkTask taskId workflowName wf params startedAt).results).2.2.2.1 with - | m | m <;>
    rw [hout] at hstatus hpub <;>
    simp only [] at hstatus hpub
  -- finished
  · have hdone := runSteps_finished_isDone invoker params
      { mkTask taskId workflowName wf params startedAt with status := Status.RUNNING }
      (wf.steps.zip (mkTask taskId workflowName wf params startedAt).steps) []
      (mkTask taskId workflowName wf params startedAt).results hout
    refine ⟨?_, ?_, ?_, ?_⟩
    · rw [hpub]
      intro t ht
      rcases List.mem_cons.mp ht with rfl | ht
      · exact hlen0
      rcases List.mem_cons.mp ht with rfl | ht
      · exact hlen0
      rcases List.mem_append.mp ht with ht | ht
      · have hm : t.steps ∈ ((publishedTasks ((runSteps invoker params
            { mkTask taskId workflowName wf params startedAt with status := Status.RUNNING }
            (wf.steps.zip (mkTask taskId workflowName wf params startedAt).steps) []
            (mkTask taskId workflowName wf params startedAt).results).2.2.2.2 [])).map
              Task.steps ++ [(runSteps invoker params
            { mkTask taskId workflowName wf params startedAt with status := Status.RUNNING }
            (wf.steps.zip (mkTask taskId workflowName wf params startedAt).steps) []
            (mkTask taskId workflowName wf params startedAt).results).1]) :=
          List.mem_append.mpr (Or.inl (List.mem_map_of_mem _ ht))
        have := chain'_recsMono_lengths _ _ hmono _ hm
        rw [this, List.length_map, List.length_zip, hlen0]
        simp
      · rcases List.mem_singleton.mp ht with rfl
        rw [hsteps]
        have hm : (runSteps invoker params
            { mkTask taskId workflowName wf params startedAt with status := Status.RUNNING }
            (wf.steps.zip (mkTask taskId workflowName wf params startedAt).steps) []
            (mkTask taskId workflowName wf params startedAt).results).1 ∈
            ((publishedTasks ((runSteps invoker params
              { mkTask taskId workflowName wf params startedAt with status := Status.RUNNING }
              (wf.steps.zip (mkTask taskId workflowName wf params startedAt).steps) []
              (mkTask taskId workflowName wf params startedAt).results).2.2.2.2 [])).map
                Task.steps ++ [(runSteps invoker params
              { mkTask taskId workflowName wf params startedAt with status := Status.RUNNING }
              (wf.steps.zip (mkTask taskId workflowName wf params startedAt).steps) []
              (mkTask taskId workflowName wf params startedAt).results).1]) :=
          List.mem_append.mpr (Or.inr (List.mem_singleton.mpr rfl))
        have := chain'_recsMono_lengths _ _ hmono _ hm
        rw [this, List.length_map, List.length_zip, hlen0]
        simp
    · rw [hpub]
      simp only [List.map_cons, List.map_append, List.map_singleton]
      rw [hsteps]
      rw [hsnd] at hmono
      exact List.chain'_cons.mpr ⟨recsMono_refl _, hmono⟩
    · rw [hstatus, hsteps]
      exact ⟨fun _ => hdone, fun _ => rfl⟩
    · rw [hstatus, hsteps, houtc, hout]
      constructor
      · intro hcontra
        exact absurd hcontra (by simp)
      · rintro (⟨r, hr, hrf⟩ | ⟨m, hm⟩)
        · rcases hdone r hr with hc | hc <;> rw [hrf] at hc <;> exact absurd hc (by simp)
        · exact absurd hm (by simp)
  -- a step failed
  · obtain ⟨pre, p0, msg, hget, hrecs, hm, hpre⟩ :=
      runSteps_stepFailed invoker params
        { mkTask taskId workflowName wf params startedAt with status := Status.RUNNING }
        (wf.steps.zip (mkTask taskId workflowName wf params startedAt).steps) []
        (mkTask taskId workflowName wf params startedAt).results m hout
    have hfmem : ({ p0.2 with status := Status.FAILED, error := some msg } : StepRecord) ∈
        (runSteps invoker params
          { mkTask taskId workflowName wf params startedAt with status := Status.RUNNING }
          (wf.steps.zip (mkTask taskId workflowName wf params startedAt).steps) []
          (mkTask taskId workflowName wf params startedAt).results).1 := by
      rw [hrecs]
      exact List.mem_append.mpr (Or.inr (List.mem_cons.mpr (Or.inl rfl)))
    refine ⟨?_, ?_, ?_, ?_⟩
    · rw [hpub]
      intro t ht
      rcases List.mem_cons.mp ht with rfl | ht
      · exact hlen0
      rcases List.mem_cons.mp ht with rfl | ht
      · exact hlen0
      simp only [List.append_eq, List.append_nil] at ht
      have hm' : t.steps ∈ ((publishedTasks ((runSteps invoker params
          { mkTask taskId workflowName wf params startedAt with status := Status.RUNNING }
          (wf.steps.zip (mkTask taskId workflowName wf params startedAt).steps) []
          (mkTask taskId workflowName wf params startedAt).results).2.2.2.2 [])).map
            Task.steps ++ [(runSteps invoker params
          { mkTask taskId workflowName wf params startedAt with status := Status.RUNNING }
          (wf.steps.zip (mkTask taskId workflowName wf params startedAt).steps) []
          (mkTask taskId workflowName wf params startedAt).results).1]) :=
        List.mem_append.mpr (Or.inl (List.mem_map_of_mem _ ht))
      have := chain'_recsMono_lengths _ _ hmono _ hm'
      rw [this, List.length_map, List.length_zip, hlen0]
      simp
    · rw [hpub]
      simp only [List.map_cons, List.map_append, List.map_nil, List.append_nil]
      rw [hsnd] at hmono
      refine List.chain'_cons.mpr ⟨recsMono_refl _, ?_⟩
      rw [← List.cons_append] at hmono
      exact (List.chain'_append.mp hmono).1
    · rw [hstatus, hsteps]
      constructor
      · intro hcontra
        exact absurd hcontra (by simp)
      · intro hall
        rcases hall _ hfmem with hc | hc <;> exact absurd hc (by simp)
    · rw [hstatus, hsteps]
      exact ⟨fun _ => Or.inl ⟨_, hfmem, rfl⟩, fun _ => rfl⟩
  -- a condition threw
  · obtain ⟨pre, p0, hget, hrecs, hpre⟩ :=
      runSteps_condThrew invoker params
        { mkTask taskId workflowName wf params startedAt with status := Status.RUNNING }
        (wf.steps.zip (mkTask taskId workflowName wf params startedAt).steps) []
        (mkTask taskId workflowName wf params startedAt).results m hout
    have hp0 := hinit p0 (List.get?_mem hget)
    have hpmem : p0.2 ∈ (runSteps invoker params
        { mkTask taskId workflowName wf params startedAt with status := Status.RUNNING }
        (wf.steps.zip (mkTask taskId workflowName wf params startedAt).steps) []
        (mkTask taskId workflowName wf params startedAt).results).1 := by
      rw [hrecs]
      exact List.mem_append.mpr (Or.inr (List.mem_cons.mpr (Or.inl rfl)))
    refine ⟨?_, ?_, ?_, ?_⟩
    · rw [hpub]
      intro t ht
      rcases List.mem_cons.mp ht with rfl | ht
      · exact hlen0
      rcases List.mem_cons.mp ht with rfl | ht
      · exact hlen0
      rcases List.mem_append.mp ht with ht | ht
      · have hm' : t.steps ∈ ((publishedTasks ((runSteps invoker params
            { mkTask taskId workflowName wf params startedAt with status := Status.RUNNING }
            (wf.steps.zip (mkTask taskId workflowName wf params startedAt).steps) []
            (mkTask taskId workflowName wf params startedAt).results).2.2.2.2 [])).map
              Task.steps ++ [(runSteps invoker params
            { mkTask taskId workflowName wf params startedAt with status := Status.RUNNING }
            (wf.steps.zip (mkTask taskId workflowName wf params startedAt).steps) []
            (mkTask taskId workflowName wf params startedAt).results).1]) :=
          List.mem_append.mpr (Or.inl (List.mem_map_of_mem _ ht))
        have := chain'_recsMono_lengths _ _ hmono _ hm'
        rw [this, List.length_map, List.length_zip, hlen0]
        simp
      · rcases List.mem_singleton.mp ht with rfl
        rw [hsteps]
        have hm' : (runSteps invoker params
            { mkTask taskId workflowName wf params startedAt with status := Status.RUNNING }
            (wf.steps.zip (mkTask taskId workflowName wf params startedAt).steps) []
            (mkTask taskId workflowName wf params startedAt).results).1 ∈
            ((publishedTasks ((runSteps invoker params
              { mkTask taskId workflowName wf params startedAt with status := Status.RUNNING }
              (wf.steps.zip (mkTask taskId workflowName wf params startedAt).steps) []
              (mkTask taskId workflowName wf params startedAt).results).2.2.2.2 [])).map
                Task.steps ++ [(runSteps invoker params
              { mkTask taskId workflowName wf params startedAt with status := Status.RUNNING }
              (wf.steps.zip (mkTask taskId workflowName wf params startedAt).steps) []
              (mkTask taskId workflowName wf params startedAt).results).1]) :=
          List.mem_append.mpr (Or.inr (List.mem_singleton.mpr rfl))
        have := chain'_recsMono_lengths _ _ hmono _ hm'
        rw [this, List.length_map, List.length_zip, hlen0]
        simp
    · rw [hpub]
      simp only [List.map_cons, List.map_append, List.map_singleton]
      rw [hsteps]
      rw [hsnd] at hmono
      exact List.chain'_cons.mpr ⟨recsMono_refl _, hmono⟩
    · rw [hstatus, hsteps]
      constructor
      · intro hcontra
        exact absurd hcontra (by simp)
      · intro hall
        rcases hall _ hpmem with hc | hc <;> rw [hp0.1] at hc <;> exact absurd hc (by simp)
    · rw [hstatus, houtc, hout]
      exact ⟨fun _ => Or.inr ⟨m, rfl⟩, fun _ => rfl⟩

theorem startAndRun_invoke_mem (invoker : Invoker) (wf : Workflow) (workflowName : String)
    (params : Obj) (taskId startedAt now : String) (k : Nat) (ag ac : String) (inp : Obj) :
    Event.invoke k ag ac inp ∈
      (startAndRun invoker wf workflowName params taskId startedAt now).2.2 →
    Event.invoke k ag ac inp ∈ (runSteps invoker params
      { mkTask taskId workflowName wf params startedAt with status := Status.RUNNING }
      (wf.steps.zip (mkTask taskId workflowName wf params startedAt).steps) []
      (mkTask taskId workflowName wf params startedAt).results).2.2.2.2 [] := by
  intro hmem
  simp only [startAndRun, executeWorkflow] at hmem
  revert hmem
  rcases hout : (runSteps invoker params
      { mkTask taskId workflowName wf params startedAt with status := Status.RUNNING }
      (wf.steps.zip (mkTask taskId workflowName wf params startedAt).steps) []
      (mkTask taskId workflowName wf params startedAt).results).2.2.2.1 with - | m | m <;>
    intro hmem <;> simp at hmem <;> exact hmem

/-- C4: a step whose condition evaluates to false against the accumulated
results of the preceding steps becomes `SKIPPED`, the Agent Invoker is never
called for that step position, and the step counts toward progress:
`getTaskStatus` reports progress as the floor of the percentage of steps that
are `COMPLETED` or `SKIPPED` over the total number of steps. -/
theorem condition_false_skips_step (invoker : Invoker) (wf : Workflow) (workflowName : String)
    (params : Obj) (taskId startedAt now : String)
    (zs₁ zs₂ : List (StepDef × StepRecord)) (s : StepDef) (r0 : StepRecord)
    (c : List (String × Obj) → Except String Bool)
    (hsplit : wf.steps.zip (mkTask taskId workflowName wf params startedAt).steps =
      zs₁ ++ (s, r0) :: zs₂)
    (hfin : (runSteps invoker params
        { mkTask taskId workflowName wf params startedAt with status := Status.RUNNING }
        zs₁ [] (mkTask taskId workflowName wf params startedAt).results).2.2.2.1 =
      StepsOutcome.finished)
    (hc : s.condition = some c)
    (hfalse : c (runSteps invoker params
        { mkTask taskId workflowName wf params startedAt with status := Status.RUNNING }
        zs₁ [] (mkTask taskId workflowName wf params startedAt).results).2.1 =
      Except.ok false) :
    (startAndRun invoker wf workflowName params taskId startedAt now).1.steps.get?
        zs₁.length = some { r0 with status := Status.SKIPPED } ∧
    (∀ ag ac inp, Event.invoke zs₁.length ag ac inp ∉
      (startAndRun invoker wf workflowName params taskId startedAt now).2.2) ∧
    (∀ (tasks : List (String × Task)) (tid : String) (t : Task),
      getKey tasks tid = some t →
      (getTaskStatus tasks tid).1.toOption.map StatusView.progress =
        some ((t.steps.filter (fun r =>
            decide (r.status = Status.COMPLETED ∨ r.status = Status.SKIPPED))).length * 100 /
          t.steps.length)) := by
  obtain ⟨hsteps, -, -, -⟩ :=
    startAndRun_final invoker wf workflowName params taskId startedAt now
  have hlen₁ := runSteps_length invoker params
    { mkTask taskId workflowName wf params startedAt with status := Status.RUNNING }
    zs₁ [] (mkTask taskId workflowName wf params startedAt).results
  have happ := runSteps_append invoker params
    { mkTask taskId workflowName wf params startedAt with status := Status.RUNNING }
    zs₁ ((s, r0) :: zs₂) [] (mkTask taskId workflowName wf params startedAt).results hfin
  have hget : (startAndRun invoker wf workflowName params taskId startedAt now).1.steps.get?
      zs₁.length = some { r0 with status := Status.SKIPPED } := by
    rw [hsteps, hsplit, happ.1]
    have h0 : (runSteps invoker params
        { mkTask taskId workflowName wf params startedAt with status := Status.RUNNING }
        ((s, r0) :: zs₂)
        (runSteps invoker params
          { mkTask taskId workflowName wf params startedAt with status := Status.RUNNING }
          zs₁ [] (mkTask taskId workflowName wf params startedAt).results).2.1
        (runSteps invoker params
          { mkTask taskId workflowName wf params startedAt with status := Status.RUNNING }
          zs₁ [] (mkTask taskId workflowName wf params startedAt).results).2.2.1).1 =
        { r0 with status := Status.SKIPPED } ::
          (runSteps invoker params
            { mkTask taskId workflowName wf params startedAt with status := Status.RUNNING }
            zs₂
            (runSteps invoker params
              { mkTask taskId workflowName wf params startedAt with status := Status.RUNNING }
              zs₁ [] (mkTask taskId workflowName wf params startedAt).results).2.1
            (runSteps invoker params
              { mkTask taskId workflowName wf params startedAt with status := Status.RUNNING }
              zs₁ [] (mkTask taskId workflowName wf params startedAt).results).2.2.1).1 := by
      simp only [runSteps, condEval, hc, hfalse]
    rw [h0]
    rw [List.get?_append_right (by rw [hlen₁])]
    rw [hlen₁]
    simp
  refine ⟨hget, ?_, ?_⟩
  · intro ag ac inp hmem
    have hmem' := startAndRun_invoke_mem invoker wf workflowName params taskId startedAt now
      zs₁.length ag ac inp hmem
    obtain ⟨r, hr, hstat⟩ := runSteps_invoke_status invoker params
      { mkTask taskId workflowName wf params startedAt with status := Status.RUNNING }
      (wf.steps.zip (mkTask taskId workflowName wf params startedAt).steps) []
      (mkTask taskId workflowName wf params startedAt).results [] zs₁.length ag ac inp hmem'
    rw [hsteps] at hget
    simp only [List.length_nil, Nat.sub_zero] at hr
    rw [hget] at hr
    obtain rfl := Option.some.inj hr
    rcases hstat with hstat | hstat <;> exact absurd hstat (by simp)
  · intro tasks tid t h
    simp only [getTaskStatus, h, Except.toOption, Option.map_some]
    rfl

/-- C4 witness: a one-step workflow whose only step's condition evaluates
false: the record is `SKIPPED`, no invocation occurs at its position, and the
progress formula is evaluated on the finished task. -/
theorem condition_false_skips_step_witness :
    (startAndRun exInvoker exWfSkip "full" [] "t1" "T0" "T1").1.steps.get? 0 =
      some { name := "s1", status := Status.SKIPPED, result := none, error := none } ∧
    Event.invoke 0 "a" "go" [] ∉
      (startAndRun exInvoker exWfSkip "full" [] "t1" "T0" "T1").2.2 ∧
    (getTaskStatus [("t1", (startAndRun exInvoker exWfSkip "full" [] "t1" "T0" "T1").1)]
        "t1").1.toOption.map StatusView.progress =
      some ((((startAndRun exInvoker exWfSkip "full" [] "t1" "T0" "T1").1.steps.filter
          (fun r =>
            decide (r.status = Status.COMPLETED ∨ r.status = Status.SKIPPED))).length * 100) /
        (startAndRun exInvoker exWfSkip "full" [] "t1" "T0" "T1").1.steps.length) :=
  ⟨(condition_false_skips_step exInvoker exWfSkip "full" [] "t1" "T0" "T1" [] []
      (exStepCondFalse "s1")
      { name := "s1", status := Status.PENDING, result := none, error := none }
      (fun _ => Except.ok false) rfl rfl rfl rfl).1,
   (condition_false_skips_step exInvoker exWfSkip "full" [] "t1" "T0" "T1" [] []
      (exStepCondFalse "s1")
      { name := "s1", status := Status.PENDING, result := none, error := none }
      (fun _ => Except.ok false) rfl rfl rfl rfl).2.1 "a" "go" [],
   (condition_false_skips_step exInvoker exWfSkip "full" [] "t1" "T0" "T1" [] []
      (exStepCondFalse "s1")
      { name := "s1", status := Status.PENDING, result := none, error := none }
      (fun _ => Except.ok false) rfl rfl rfl rfl).2.2
     [("t1", (startAndRun exInvoker exWfSkip "full" [] "t1" "T0" "T1").1)] "t1"
     (startAndRun exInvoker exWfSkip "full" [] "t1" "T0" "T1").1 rfl⟩

/-- C10: for a workflow with unique step names, at the point any step of the
run is reached (split the zipped step list as a finished prefix `zs₁`
followed by `zs₂`), the run continues from exactly the prefix state (records,
accumulated `stepResults`, accumulated task results and outcome compose); the
accumulated-results object passed to the next step's `inputs`/`condition` is
exactly one entry per `COMPLETED` step of the prefix — its name mapped to its
recorded output-mapping result — with no entry for `SKIPPED` or pending
steps; a `SKIPPED` record keeps a null `result`; and the task results map is
the left fold of the completed steps' mapped outputs (skipped steps
contribute no keys). -/
theorem accumulated_results_exact (invoker : Invoker) (wf : Workflow) (workflowName : String)
    (params : Obj) (taskId startedAt now : String)
    (zs₁ zs₂ : List (StepDef × StepRecord))
    (hnodup : (wf.steps.map StepDef.name).Nodup)
    (hsplit : wf.steps.zip (mkTask taskId workflowName wf params startedAt).steps =
      zs₁ ++ zs₂)
    (hfin : (runSteps invoker params
        { mkTask taskId workflowName wf params startedAt with status := Status.RUNNING }
        zs₁ [] (mkTask taskId workflowName wf params startedAt).results).2.2.2.1 =
      StepsOutcome.finished) :
    (runSteps invoker params
        { mkTask taskId workflowName wf params startedAt with status := Status.RUNNING }
        (zs₁ ++ zs₂) [] (mkTask taskId workflowName wf params startedAt).results).1 =
      (runSteps invoker params
        { mkTask taskId workflowName wf params startedAt with status := Status.RUNNING }
        zs₁ [] (mkTask taskId workflowName wf params startedAt).results).1 ++
      (runSteps invoker params
        { mkTask taskId workflowName wf params startedAt with status := Status.RUNNING }
        zs₂
        (runSteps invoker params
          { mkTask taskId workflowName wf params startedAt with status := Status.RUNNING }
          zs₁ [] (mkTask taskId workflowName wf params startedAt).results).2.1
        (runSteps invoker params
          { mkTask taskId workflowName wf params startedAt with status := Status.RUNNING }
          zs₁ [] (mkTask taskId workflowName wf params startedAt).results).2.2.1).1 ∧
    (runSteps invoker params
        { mkTask taskId workflowName wf params startedAt with status := Status.RUNNING }
        (zs₁ ++ zs₂) [] (mkTask taskId workflowName wf params startedAt).results).2.1 =
      (runSteps invoker params
        { mkTask taskId workflowName wf params startedAt with status := Status.RUNNING }
        zs₂
        (runSteps invoker params
          { mkTask taskId workflowName wf params startedAt with status := Status.RUNNING }
          zs₁ [] (mkTask taskId workflowName wf params startedAt).results).2.1
        (runSteps invoker params
          { mkTask taskId workflowName wf params startedAt with status := Status.RUNNING }
          zs₁ [] (mkTask taskId workflowName wf params startedAt).results).2.2.1).2.1 ∧
    (runSteps invoker params
        { mkTask taskId workflowName wf params startedAt with status := Status.RUNNING }
        zs₁ [] (mkTask taskId workflowName wf params startedAt).results).2.1 =
      completedResults (runSteps invoker params
        { mkTask taskId workflowName wf params startedAt with status := Status.RUNNING }
        zs₁ [] (mkTask taskId workflowName wf params startedAt).results).1 ∧
    (∀ r ∈ (runSteps invoker params
        { mkTask taskId workflowName wf params startedAt with status := Status.RUNNING }
        zs₁ [] (mkTask taskId workflowName wf params startedAt).results).1,
      r.status = Status.SKIPPED → r.result = none) ∧
    (runSteps invoker params
        { mkTask taskId workflowName wf params startedAt with status := Status.RUNNING }
        zs₁ [] (mkTask taskId workflowName wf params startedAt).results).2.2.1 =
      List.foldl mergeObj []
        ((completedResults (runSteps invoker params
          { mkTask taskId workflowName wf params startedAt with status := Status.RUNNING }
          zs₁ [] (mkTask taskId workflowName wf params startedAt).results).1).map
            Prod.snd) := by
  have hinit := mkTask_zip_init wf taskId workflowName params startedAt
  have hinit₁ : ∀ p ∈ zs₁,
      p.2.status = Status.PENDING ∧ p.2.result = none ∧ p.2.name = p.1.name := by
    intro p hp
    exact hinit p (by rw [hsplit]; exact List.mem_append.mpr (Or.inl hp))
  have hnames : (wf.steps.zip (mkTask taskId workflowName wf params startedAt).steps).map
      (fun p => p.1.name) = wf.steps.map StepDef.name := by
    simp only [mkTask]
    rw [zip_map_self, List.map_map]
    rfl
  have hnodup₁ : (zs₁.map (fun p => p.1.name)).Nodup := by
    have : ((zs₁ ++ zs₂).map (fun p => p.1.name)).Nodup := by
      rw [← hsplit, hnames]
      exact hnodup
    rw [List.map_append] at this
    exact this.of_append_left
  have happ := runSteps_append invoker params
    { mkTask taskId workflowName wf params startedAt with status := Status.RUNNING }
    zs₁ zs₂ [] (mkTask taskId workflowName wf params startedAt).results hfin
  have hsr := runSteps_sr invoker params
    { mkTask taskId workflowName wf params startedAt with status := Status.RUNNING }
    zs₁ [] (mkTask taskId workflowName wf params startedAt).results hinit₁ hnodup₁
    (fun p _ => rfl)
  have hres := runSteps_results invoker params
    { mkTask taskId workflowName wf params startedAt with status := Status.RUNNING }
    zs₁ [] (mkTask taskId workflowName wf params startedAt).results
    (fun p hp => ⟨(hinit₁ p hp).1, (hinit₁ p hp).2.1⟩)
  exact ⟨happ.1, happ.2.1, by simpa using hsr, hres.2, hres.1⟩

/-- C10 witness: the two-step workflow split after its first step: the first
step completed with its mapped output recorded under its name, and the
accumulated results and task results are exactly that output. -/
theorem accumulated_results_exact_witness :
    (runSteps exInvoker []
        { mkTask "t1" "full" exWfOk [] "T0" with status := Status.RUNNING }
        ((exWfOk.steps.zip (mkTask "t1" "full" exWfOk [] "T0").steps).take 1 ++
          (exWfOk.steps.zip (mkTask "t1" "full" exWfOk [] "T0").steps).drop 1) []
        (mkTask "t1" "full" exWfOk [] "T0").results).1 =
      (runSteps exInvoker []
        { mkTask "t1" "full" exWfOk [] "T0" with status := Status.RUNNING }
        ((exWfOk.steps.zip (mkTask "t1" "full" exWfOk [] "T0").steps).take 1) []
        (mkTask "t1" "full" exWfOk [] "T0").results).1 ++
      (runSteps exInvoker []
        { mkTask "t1" "full" exWfOk [] "T0" with status := Status.RUNNING }
        ((exWfOk.steps.zip (mkTask "t1" "full" exWfOk [] "T0").steps).drop 1)
        (runSteps exInvoker []
          { mkTask "t1" "full" exWfOk [] "T0" with status := Status.RUNNING }
          ((exWfOk.steps.zip (mkTask "t1" "full" exWfOk [] "T0").steps).take 1) []
          (mkTask "t1" "full" exWfOk [] "T0").results).2.1
        (runSteps exInvoker []
          { mkTask "t1" "full" exWfOk [] "T0" with status := Status.RUNNING }
          ((exWfOk.steps.zip (mkTask "t1" "full" exWfOk [] "T0").steps).take 1) []
          (mkTask "t1" "full" exWfOk [] "T0").results).2.2.1).1 ∧
    (runSteps exInvoker []
        { mkTask "t1" "full" exWfOk [] "T0" with status := Status.RUNNING }
        ((exWfOk.steps.zip (mkTask "t1" "full" exWfOk [] "T0").steps).take 1) []
        (mkTask "t1" "full" exWfOk [] "T0").results).2.1 =
      completedResults (runSteps exInvoker []
        { mkTask "t1" "full" exWfOk [] "T0" with status := Status.RUNNING }
        ((exWfOk.steps.zip (mkTask "t1" "full" exWfOk [] "T0").steps).take 1) []
        (mkTask "t1" "full" exWfOk [] "T0").results).1 :=
  ⟨(accumulated_results_exact exInvoker exWfOk "full" [] "t1" "T0" "T1"
      ((exWfOk.steps.zip (mkTask "t1" "full" exWfOk [] "T0").steps).take 1)
      ((exWfOk.steps.zip (mkTask "t1" "full" exWfOk [] "T0").steps).drop 1)
      (by decide) (List.take_append_drop 1 _).symm rfl).1,
   (accumulated_results_exact exInvoker exWfOk "full" [] "t1" "T0" "T1"
      ((exWfOk.steps.zip (mkTask "t1" "full" exWfOk [] "T0").steps).take 1)
      ((exWfOk.steps.zip (mkTask "t1" "full" exWfOk [] "T0").steps).drop 1)
      (by decide) (List.take_append_drop 1 _).symm rfl).2.2.1⟩

end HappinessAgent
